import Mathlib

/-!
# Verification of the Relay store-and-publish engine

This file gives a shallow embedding of the normalized record store and the
publish queue of the repository (`RelayPublishQueue.js`, which contains both
the `RelayPublishQueue` class and the `RelayModernStore` class together with
the free function `updateTargetFromSource`), and settles the frozen claims
about it.

Conventions of the embedding:
* JavaScript objects used as string-keyed maps become association lists
  `List (String × α)`; key iteration order is list order, matching the
  insertion-order iteration of JS objects.
* A `RecordSource` maps a `DataID` to `Option Record`: `some r` is a stored
  record, `none` is the tombstone written by `delete` (JS `null`), and a
  missing key is "unfetched" (JS `undefined`).
* JS reference equality of records produced by `RelayModernRecord.update` is
  modelled by value equality: `update` returns its first argument unchanged
  exactly when every field of the second argument is already present with an
  equal value, which is exactly when the JS implementation returns the same
  reference.

Components that the claims depend on but whose implementation files are not
part of the sources (only `RelayPublishQueue.js` and a test file for the
reader are available) are modelled from the specification; each such
definition carries a doc comment starting with `Modelled from the spec:`.
-/

set_option maxHeartbeats 1000000

abbrev DataID := String

/-- Field values stored in a record: scalars (string, number, boolean),
explicit null, a singular linked reference, or plural references
(spec section 3, "Record"). -/
inductive FieldValue where
  | vNull
  | vStr (s : String)
  | vInt (n : Int)
  | vBool (b : Bool)
  | vRef (id : DataID)
  | vRefs (ids : List (Option DataID))
deriving DecidableEq

/-- A record is a mapping from storage key to field value, represented as an
association list in insertion order (spec section 3, "Record"). -/
abbrev Record := List (String × FieldValue)

/-! ## Association list primitives

Generic first-occurrence association list operations, shared by records
(storage key to field value) and record sources (DataID to entry). -/

/-- Look up the value at the first occurrence of key `k`. -/
def assocGet {α : Type} (l : List (String × α)) (k : String) : Option α :=
  match l with
  | [] => none
  | p :: rest => if p.1 = k then some p.2 else assocGet rest k

/-- Replace the value at the first occurrence of key `k`, or append the pair
if the key is absent (JS `obj[k] = v`). -/
def assocSet {α : Type} (l : List (String × α)) (k : String) (v : α) :
    List (String × α) :=
  match l with
  | [] => [(k, v)]
  | p :: rest => if p.1 = k then (k, v) :: rest else p :: assocSet rest k v

/-- Remove every occurrence of key `k` (JS `delete obj[k]`). -/
def assocRemove {α : Type} (l : List (String × α)) (k : String) :
    List (String × α) :=
  match l with
  | [] => []
  | p :: rest => if p.1 = k then assocRemove rest k else p :: assocRemove rest k

theorem assocGet_set_self {α : Type} (l : List (String × α)) (k : String)
    (v : α) : assocGet (assocSet l k v) k = some v := by
  induction l with
  | nil => simp [assocGet, assocSet]
  | cons p rest ih =>
    by_cases h : p.1 = k
    · simp [assocGet, assocSet, h]
    · simp [assocGet, assocSet, h, ih]

theorem assocGet_set_ne {α : Type} (l : List (String × α)) (k k' : String)
    (v : α) (h : k' ≠ k) : assocGet (assocSet l k v) k' = assocGet l k' := by
  induction l with
  | nil => simp [assocGet, assocSet, Ne.symm h]
  | cons p rest ih =>
    by_cases hp : p.1 = k
    · subst hp
      simp [assocGet, assocSet, Ne.symm h]
    · by_cases hp' : p.1 = k'
      · simp [assocGet, assocSet, hp, hp', h]
      · simp [assocGet, assocSet, hp, hp', ih]

theorem assocGet_remove_self {α : Type} (l : List (String × α)) (k : String) :
    assocGet (assocRemove l k) k = none := by
  induction l with
  | nil => rfl
  | cons p rest ih =>
    by_cases h : p.1 = k
    · simpa [assocRemove, h] using ih
    · simpa [assocRemove, assocGet, h] using ih

theorem assocGet_remove_ne {α : Type} (l : List (String × α)) (k k' : String)
    (h : k' ≠ k) : assocGet (assocRemove l k) k' = assocGet l k' := by
  induction l with
  | nil => rfl
  | cons p rest ih =>
    by_cases hp : p.1 = k
    · subst hp
      rw [assocGet]
      simp only [Ne.symm h, if_false]
      simpa [assocRemove] using ih
    · by_cases hp' : p.1 = k'
      · simp [assocRemove, assocGet, hp, hp', h]
      · simp [assocRemove, assocGet, hp, hp', ih]

theorem assocGet_eq_none_of_not_mem_keys {α : Type} (l : List (String × α))
    (k : String) (h : k ∉ l.map Prod.fst) : assocGet l k = none := by
  induction l with
  | nil => rfl
  | cons p rest ih =>
    simp only [List.map_cons, List.mem_cons] at h
    push_neg at h
    simp [assocGet, Ne.symm h.1, ih h.2]

theorem mem_keys_of_assocGet_eq_some {α : Type} (l : List (String × α))
    (k : String) (v : α) (h : assocGet l k = some v) : k ∈ l.map Prod.fst := by
  induction l with
  | nil => simp [assocGet] at h
  | cons p rest ih =>
    by_cases hp : p.1 = k
    · simp [hp]
    · simp only [assocGet, hp, if_false] at h
      simp [ih h]

theorem keys_assocSet {α : Type} (l : List (String × α)) (k : String) (v : α) :
    (assocSet l k v).map Prod.fst =
      if k ∈ l.map Prod.fst then l.map Prod.fst else l.map Prod.fst ++ [k] := by
  induction l with
  | nil => simp [assocSet]
  | cons p rest ih =>
    by_cases hp : p.1 = k
    · simp [assocSet, hp]
    · by_cases hk : k ∈ rest.map Prod.fst
      · simp [assocSet, hp, hk, ih, Ne.symm hp]
      · simp [assocSet, hp, hk, ih, Ne.symm hp]

theorem nodup_keys_assocSet {α : Type} (l : List (String × α)) (k : String)
    (v : α) (h : (l.map Prod.fst).Nodup) :
    ((assocSet l k v).map Prod.fst).Nodup := by
  rw [keys_assocSet]
  by_cases hk : k ∈ l.map Prod.fst
  · simpa [hk] using h
  · simp only [hk, if_false]
    rw [List.nodup_append]
    refine ⟨h, List.nodup_singleton _, ?_⟩
    intro a ha hmem
    simp only [List.mem_singleton] at hmem
    subst hmem
    exact hk ha

theorem mem_of_assocGet_eq_some {α : Type} (l : List (String × α))
    (k : String) (v : α) (h : assocGet l k = some v) : (k, v) ∈ l := by
  induction l with
  | nil => simp [assocGet] at h
  | cons p rest ih =>
    by_cases hp : p.1 = k
    · simp only [assocGet, hp, if_true, Option.some.injEq] at h
      have hpkv : p = (k, v) := by
        cases p
        simp_all
      rw [← hpkv]
      exact List.mem_cons_self p rest
    · simp only [assocGet, hp, if_false] at h
      exact List.mem_cons_of_mem _ (ih h)

theorem assocGet_eq_some_of_mem_nodup {α : Type} (l : List (String × α))
    (k : String) (v : α) (hmem : (k, v) ∈ l)
    (hnd : (l.map Prod.fst).Nodup) : assocGet l k = some v := by
  induction l with
  | nil => simp at hmem
  | cons p rest ih =>
    simp only [List.map_cons, List.nodup_cons] at hnd
    rcases List.mem_cons.mp hmem with h | h
    · subst h
      simp [assocGet]
    · have hk : p.1 ≠ k := by
        intro hp
        exact hnd.1 (hp ▸ (List.mem_map.mpr ⟨(k, v), h, rfl⟩))
      simp [assocGet, hk, ih h hnd.2]

/-! ## Records -/

namespace RelayModernRecord

/-- Read the value of a storage key on a record; `none` means the key is
absent (distinct from an explicit null value). -/
def getValue (r : Record) (k : String) : Option FieldValue :=
  assocGet r k

/-- Write a storage key on a record. -/
def setValue (r : Record) (k : String) (v : FieldValue) : Record :=
  assocSet r k v

/-- Whether the record has the storage key at all. -/
def hasKey (r : Record) (k : String) : Bool :=
  (getValue r k).isSome

end RelayModernRecord

/-- `Modelled from the spec:` the unpublish sentinel, "distinct from
tombstone", which `updateTargetFromSource` recognizes to remove a record
entirely (spec section 4.5; the defining module `RelayStoreUtils.js` is not
among the sources).  In JS this is a unique frozen object compared by
reference; here it is a distinguished record value that no ordinary record
equals, because ordinary records never carry its reserved key. -/
def UNPUBLISH_RECORD_SENTINEL : Record :=
  [("__UNPUBLISH_RECORD_SENTINEL", FieldValue.vBool true)]

namespace RelayModernRecord

/-- Every field of `next` is present in `prev` with an equal value.  This is
exactly the condition under which the JS `RelayModernRecord.update` returns
`prev` itself (reference-equal result). -/
def subsumes (prev next : Record) : Bool :=
  next.all (fun p => decide (getValue prev p.1 = some p.2))

/-- Merge the fields of `next` into `prev`, last write winning. -/
def mergeFields (prev next : Record) : Record :=
  next.foldl (fun acc p => setValue acc p.1 p.2) prev

/-- `Modelled from the spec:` `RelayModernRecord.update` (the module
`RelayModernRecord.js` is not among the sources).  Per spec section 4.5,
merging an existing record with a new record is a "field-wise merge
producing a new record; if equal by value to the previous, do not mark
changed" — the function returns `prev` itself when nothing changes and the
field-wise merge otherwise. -/
def update (prev next : Record) : Record :=
  if subsumes prev next then prev else mergeFields prev next

theorem getValue_mergeFields_of_not_mem (prev next : Record) (k : String)
    (h : assocGet next k = none) :
    getValue (mergeFields prev next) k = getValue prev k := by
  induction next generalizing prev with
  | nil => rfl
  | cons p rest ih =>
    by_cases hp : p.1 = k
    · simp [assocGet, hp] at h
    · simp only [assocGet, hp, if_false] at h
      unfold mergeFields at *
      simp only [List.foldl_cons]
      rw [ih _ h]
      exact assocGet_set_ne prev p.1 k p.2 (fun hh => hp hh.symm)

theorem getValue_mergeFields_of_mem (prev next : Record) (k : String)
    (v : FieldValue) (hmem : (k, v) ∈ next)
    (hnd : (next.map Prod.fst).Nodup) :
    getValue (mergeFields prev next) k = some v := by
  induction next generalizing prev with
  | nil => simp at hmem
  | cons p rest ih =>
    simp only [List.map_cons, List.nodup_cons] at hnd
    unfold mergeFields
    simp only [List.foldl_cons]
    rcases List.mem_cons.mp hmem with h | h
    · subst h
      have hrest : assocGet rest k = none := by
        apply assocGet_eq_none_of_not_mem_keys
        exact hnd.1
      have := getValue_mergeFields_of_not_mem (setValue prev k v) rest k hrest
      unfold mergeFields at this
      rw [this]
      exact assocGet_set_self prev k v
    · exact ih (setValue prev p.1 p.2) h hnd.2

theorem hasKey_mergeFields (prev next : Record) (k : String) :
    hasKey (mergeFields prev next) k = (hasKey prev k || hasKey next k) := by
  induction next generalizing prev with
  | nil => simp [mergeFields, hasKey, getValue, assocGet]
  | cons p rest ih =>
    unfold mergeFields
    simp only [List.foldl_cons]
    have := ih (setValue prev p.1 p.2)
    unfold mergeFields at this
    rw [this]
    by_cases hp : p.1 = k
    · subst hp
      simp [hasKey, getValue, setValue, assocGet_set_self, assocGet]
    · simp [hasKey, getValue, setValue, assocGet_set_ne prev p.1 k p.2
        (fun hh => hp hh.symm), assocGet, fun hh : p.1 = k => hp hh]

theorem subsumes_iff (prev next : Record) :
    subsumes prev next = true ↔
      ∀ p ∈ next, getValue prev p.1 = some p.2 := by
  simp [subsumes, List.all_eq_true]

/-- Merging the same fields twice is stable: after a merge, every field of
`next` is present with an equal value (keys of `next` distinct). -/
theorem subsumes_mergeFields (prev next : Record)
    (hnd : (next.map Prod.fst).Nodup) :
    subsumes (mergeFields prev next) next = true := by
  rw [subsumes_iff]
  intro p hp
  exact getValue_mergeFields_of_mem prev next p.1 p.2 hp hnd

theorem update_mergeFields (prev next : Record)
    (hnd : (next.map Prod.fst).Nodup) :
    update (mergeFields prev next) next = mergeFields prev next := by
  unfold update
  rw [subsumes_mergeFields prev next hnd]
  simp

theorem update_of_subsumes (prev next : Record)
    (h : subsumes prev next = true) : update prev next = prev := by
  simp [update, h]

end RelayModernRecord

/-! ## Record sources

`Modelled from the spec:` the `RelayRecordSource` module is not among the
sources.  Per spec section 3, a record source is a mapping
DataID → (Record | tombstone | absent) with `get`, `set`, `delete` (write
tombstone), `remove` (forget entirely), `getRecordIDs`, `size`, `clear`. -/

namespace RelayRecordSource

/-- A record source: `some r` is a record, `none` a tombstone; a missing
key is absent. -/
abbrev Source := List (DataID × Option Record)

/-- Fresh empty source (JS `RelayRecordSource.create()`). -/
def create : Source := []

def get (s : Source) (d : DataID) : Option (Option Record) :=
  assocGet s d

def set (s : Source) (d : DataID) (e : Option Record) : Source :=
  assocSet s d e

/-- Write a tombstone (JS `delete`, which stores `null`). -/
def delete (s : Source) (d : DataID) : Source :=
  assocSet s d none

/-- Forget the dataID entirely (JS `remove`). -/
def remove (s : Source) (d : DataID) : Source :=
  assocRemove s d

def getRecordIDs (s : Source) : List DataID :=
  s.map Prod.fst

def size (s : Source) : Nat :=
  s.length

def clear : Source := []

end RelayRecordSource

/-! ## `updateTargetFromSource` (RelayPublishQueue.js lines 674-714)

Publishing a source into the canonical target.  The per-dataID branches
follow the JS code: unpublish sentinel → remove and mark; record into
record → `RelayModernRecord.update` merge, marking only when the result is
not (reference-)equal to the previous record; explicit null → tombstone,
marking unless the target was already a tombstone; record into tombstone or
absent → set and mark. -/

/-- The JS updated-record-ID collection is an object used as a set keyed by
dataID; inserting an already-present ID is a no-op. -/
def markUpdated (u : List DataID) (d : DataID) : List DataID :=
  if d ∈ u then u else u ++ [d]

/-- One iteration of the `updateTargetFromSource` loop, processing the
source entry `x` against the accumulated target and updated-ID set. -/
def publishStep (acc : RelayRecordSource.Source × List DataID)
    (x : DataID × Option Record) : RelayRecordSource.Source × List DataID :=
  let tgt := acc.1
  let upd := acc.2
  match x.2 with
  | some sourceRecord =>
    if sourceRecord = UNPUBLISH_RECORD_SENTINEL then
      (RelayRecordSource.remove tgt x.1, markUpdated upd x.1)
    else
      match RelayRecordSource.get tgt x.1 with
      | some (some targetRecord) =>
        let nextRecord := RelayModernRecord.update targetRecord sourceRecord
        if nextRecord = targetRecord then (tgt, upd)
        else (RelayRecordSource.set tgt x.1 (some nextRecord),
              markUpdated upd x.1)
      | _ =>
        (RelayRecordSource.set tgt x.1 (some sourceRecord), markUpdated upd x.1)
  | none =>
    let marked :=
      if RelayRecordSource.get tgt x.1 = some none then upd
      else markUpdated upd x.1
    (RelayRecordSource.delete tgt x.1, marked)

/-- `updateTargetFromSource(target, source, updatedRecordIDs)`: fold the
per-dataID branches over the source entries in iteration order, returning
the new target and updated-ID set. -/
def updateTargetFromSource (target : RelayRecordSource.Source)
    (source : RelayRecordSource.Source) (updated : List DataID) :
    RelayRecordSource.Source × List DataID :=
  List.foldl publishStep (target, updated) source

/-- The effect of one published entry on the target's value at its own
dataID, as a function of the previous value. -/
def entryApply (tgt : Option (Option Record)) (e : Option Record) :
    Option (Option Record) :=
  match e with
  | some r =>
    if r = UNPUBLISH_RECORD_SENTINEL then none
    else
      match tgt with
      | some (some t) => some (some (RelayModernRecord.update t r))
      | _ => some (some r)
  | none => some none

/-- Whether publishing entry `e` over previous target value `tgt` marks the
dataID as updated. -/
def publishMarks (tgt : Option (Option Record)) (e : Option Record) : Prop :=
  match e with
  | some r =>
    r = UNPUBLISH_RECORD_SENTINEL ∨
      (match tgt with
       | some (some t) => RelayModernRecord.update t r ≠ t
       | _ => True)
  | none => tgt ≠ some none

instance (tgt : Option (Option Record)) (e : Option Record) :
    Decidable (publishMarks tgt e) := by
  unfold publishMarks
  match e with
  | some r =>
    match tgt with
    | some (some t) => exact inferInstanceAs (Decidable (_ ∨ _))
    | some none => exact inferInstanceAs (Decidable (_ ∨ _))
    | none => exact inferInstanceAs (Decidable (_ ∨ _))
  | none => exact inferInstanceAs (Decidable _)

theorem mem_markUpdated (u : List DataID) (d d' : DataID) :
    d' ∈ markUpdated u d ↔ d' ∈ u ∨ d' = d := by
  unfold markUpdated
  by_cases h : d ∈ u
  · simp only [h, if_true]
    constructor
    · exact Or.inl
    · rintro (hh | rfl)
      · exact hh
      · exact h
  · simp [h]

theorem publishStep_get_ne (acc : RelayRecordSource.Source × List DataID)
    (x : DataID × Option Record) (d : DataID) (h : d ≠ x.1) :
    RelayRecordSource.get (publishStep acc x).1 d =
      RelayRecordSource.get acc.1 d := by
  rcases acc with ⟨tgt, upd⟩
  rcases x with ⟨xd, xe⟩
  simp only at h
  match xe with
  | some r =>
    by_cases hs : r = UNPUBLISH_RECORD_SENTINEL
    · simp [publishStep, hs, RelayRecordSource.get, RelayRecordSource.remove,
        assocGet_remove_ne _ _ _ h]
    · match hg : assocGet tgt xd with
      | some (some t) =>
        by_cases hn : RelayModernRecord.update t r = t
        · simp [publishStep, hs, hg, hn, RelayRecordSource.get]
        · simp [publishStep, hs, hg, hn, RelayRecordSource.get,
            RelayRecordSource.set, assocGet_set_ne _ _ _ _ h]
      | some none =>
        simp [publishStep, hs, hg, RelayRecordSource.get,
          RelayRecordSource.set, assocGet_set_ne _ _ _ _ h]
      | none =>
        simp [publishStep, hs, hg, RelayRecordSource.get,
          RelayRecordSource.set, assocGet_set_ne _ _ _ _ h]
  | none =>
    simp [publishStep, RelayRecordSource.get, RelayRecordSource.delete,
      assocGet_set_ne _ _ _ _ h]

theorem publishStep_get_self (acc : RelayRecordSource.Source × List DataID)
    (x : DataID × Option Record) :
    RelayRecordSource.get (publishStep acc x).1 x.1 =
      entryApply (RelayRecordSource.get acc.1 x.1) x.2 := by
  rcases acc with ⟨tgt, upd⟩
  rcases x with ⟨xd, xe⟩
  match xe with
  | some r =>
    by_cases hs : r = UNPUBLISH_RECORD_SENTINEL
    · simp [publishStep, hs, entryApply, RelayRecordSource.get,
        RelayRecordSource.remove, assocGet_remove_self]
    · match hg : assocGet tgt xd with
      | some (some t) =>
        by_cases hn : RelayModernRecord.update t r = t
        · simp [publishStep, hs, hg, hn, entryApply, RelayRecordSource.get]
        · simp [publishStep, hs, hg, hn, entryApply, RelayRecordSource.get,
            RelayRecordSource.set, assocGet_set_self]
      | some none =>
        simp [publishStep, hs, hg, entryApply, RelayRecordSource.get,
          RelayRecordSource.set, assocGet_set_self]
      | none =>
        simp [publishStep, hs, hg, entryApply, RelayRecordSource.get,
          RelayRecordSource.set, assocGet_set_self]
  | none =>
    simp [publishStep, entryApply, RelayRecordSource.get,
      RelayRecordSource.delete, assocGet_set_self]

theorem publishStep_upd (acc : RelayRecordSource.Source × List DataID)
    (x : DataID × Option Record) :
    (publishStep acc x).2 =
      if publishMarks (RelayRecordSource.get acc.1 x.1) x.2 then
        markUpdated acc.2 x.1
      else acc.2 := by
  rcases acc with ⟨tgt, upd⟩
  rcases x with ⟨xd, xe⟩
  match xe with
  | some r =>
    by_cases hs : r = UNPUBLISH_RECORD_SENTINEL
    · simp [publishStep, hs, publishMarks]
    · match hg : RelayRecordSource.get tgt xd with
      | some (some t) =>
        by_cases hn : RelayModernRecord.update t r = t
        · simp [publishStep, hs, hg, hn, publishMarks]
        · simp [publishStep, hs, hg, hn, publishMarks]
      | some none =>
        simp [publishStep, hs, hg, publishMarks]
      | none =>
        simp [publishStep, hs, hg, publishMarks]
  | none =>
    by_cases hg : RelayRecordSource.get tgt xd = some none
    · simp [publishStep, hg, publishMarks]
    · simp [publishStep, hg, publishMarks]

/-- Pointwise characterization of publishing: with distinct dataIDs in the
published source, the value at `d` after the publish is the old value when
`d` is not in the source, and `entryApply` of its entry otherwise. -/
theorem publish_get (target source : RelayRecordSource.Source)
    (updated : List DataID) (d : DataID)
    (hnd : (source.map Prod.fst).Nodup) :
    RelayRecordSource.get (updateTargetFromSource target source updated).1 d =
      match assocGet source d with
      | none => RelayRecordSource.get target d
      | some e => entryApply (RelayRecordSource.get target d) e := by
  induction source generalizing target updated with
  | nil => simp [updateTargetFromSource, assocGet]
  | cons x rest ih =>
    rcases x with ⟨xd, xe⟩
    simp only [List.map_cons, List.nodup_cons] at hnd
    unfold updateTargetFromSource at *
    simp only [List.foldl_cons]
    by_cases hd : d = xd
    · have hrest : assocGet rest d = none := by
        apply assocGet_eq_none_of_not_mem_keys
        rw [hd]
        exact hnd.1
      have hx : assocGet ((xd, xe) :: rest) d = some xe := by
        simp [assocGet, hd.symm]
      rw [hx, ih _ _ hnd.2, hrest]
      rw [hd]
      exact publishStep_get_self (target, updated) (xd, xe)
    · have hx : assocGet ((xd, xe) :: rest) d = assocGet rest d := by
        simp [assocGet, Ne.symm hd]
      rw [hx, ih _ _ hnd.2, publishStep_get_ne (target, updated) (xd, xe) d hd]

/-- Membership characterization of the updated-ID set produced by a publish:
a dataID is collected iff it was already in the set or its source entry
marks over the old target value. -/
theorem publish_updated_mem (target source : RelayRecordSource.Source)
    (updated : List DataID) (d : DataID)
    (hnd : (source.map Prod.fst).Nodup) :
    d ∈ (updateTargetFromSource target source updated).2 ↔
      d ∈ updated ∨
        (∃ e, assocGet source d = some e ∧
          publishMarks (RelayRecordSource.get target d) e) := by
  induction source generalizing target updated with
  | nil => simp [updateTargetFromSource, assocGet]
  | cons x rest ih =>
    rcases x with ⟨xd, xe⟩
    simp only [List.map_cons, List.nodup_cons] at hnd
    unfold updateTargetFromSource at *
    simp only [List.foldl_cons]
    rw [ih _ _ hnd.2]
    rw [publishStep_upd (target, updated) (xd, xe)]
    by_cases hd : d = xd
    · subst hd
      have hrest : assocGet rest d = none :=
        assocGet_eq_none_of_not_mem_keys rest d hnd.1
      have hx : assocGet ((d, xe) :: rest) d = some xe := by
        simp [assocGet]
      rw [hx, hrest]
      rw [publishStep_get_self (target, updated) (d, xe)]
      by_cases hm : publishMarks (RelayRecordSource.get target d) xe
      · simp only [hm, if_true]
        rw [mem_markUpdated]
        constructor
        · rintro (h1 | ⟨e, he, hmm⟩)
          · rcases h1 with h1 | h1
            · exact Or.inl h1
            · exact Or.inr ⟨xe, rfl, hm⟩
          · simp at he
        · rintro (h1 | ⟨e, he, hmm⟩)
          · exact Or.inl (Or.inl h1)
          · exact Or.inl (Or.inr rfl)
      · simp only [hm, if_false]
        constructor
        · rintro (h1 | ⟨e, he, hmm⟩)
          · exact Or.inl h1
          · simp at he
        · rintro (h1 | ⟨e, he, hmm⟩)
          · exact Or.inl h1
          · injection he with he2
            subst he2
            exact absurd hmm hm
    · have hx : assocGet ((xd, xe) :: rest) d = assocGet rest d := by
        simp [assocGet, Ne.symm hd]
      rw [hx, publishStep_get_ne (target, updated) (xd, xe) d hd]
      by_cases hm : publishMarks (RelayRecordSource.get target xd) xe
      · simp only [hm, if_true, mem_markUpdated]
        constructor
        · rintro (h1 | h2)
          · rcases h1 with h1 | h1
            · exact Or.inl h1
            · exact absurd h1 hd
          · exact Or.inr h2
        · rintro (h1 | h2)
          · exact Or.inl (Or.inl h1)
          · exact Or.inr h2
      · simp only [hm, if_false]

/-! ## Selections and the reader

`Modelled from the spec:` `RelayReader.js` is not among the sources (only
its test file is).  Spec section 4.3 describes the reader: it materializes
a fresh tree mirroring the selection, marks `isMissingData` for absent
fields, follows linked references, and adds every record visited (including
reads that produced null or absent results) to `seenRecords`.  The missing
root policy (spec section 4.3 and the tests "reads data when the root is
deleted" / "unfetched") is: tombstoned root → data null; absent root →
data undefined with `isMissingData`; the root dataID is recorded in
`seenRecords` in both cases.

The selection IR is reduced to scalar fields and linked fields, which is
the fragment of the reader (and of the normalization-selector walkers) that
the claims exercise; reader selectors and normalization selectors share
this shape in the model. -/

inductive Selection where
  | scalarField (storageKey : String)
  | linkedField (storageKey : String) (children : List Selection)

structure ReaderSelector where
  dataID : DataID
  selections : List Selection

/-- JS data trees produced by the reader: `undef` is JS `undefined`, `val`
a leaf value (including explicit null), `obj` an object in field order,
`arr` an array. -/
inductive RData where
  | undef
  | val (v : FieldValue)
  | obj (fields : List (String × RData))
  | arr (items : List RData)

mutual

def rdataDecEq : (a b : RData) → Decidable (a = b)
  | .undef, .undef => isTrue rfl
  | .undef, .val _ => isFalse (by simp)
  | .undef, .obj _ => isFalse (by simp)
  | .undef, .arr _ => isFalse (by simp)
  | .val _, .undef => isFalse (by simp)
  | .val v, .val w =>
    if h : v = w then isTrue (by rw [h]) else isFalse (by simp [h])
  | .val _, .obj _ => isFalse (by simp)
  | .val _, .arr _ => isFalse (by simp)
  | .obj _, .undef => isFalse (by simp)
  | .obj _, .val _ => isFalse (by simp)
  | .obj fs, .obj gs =>
    match rdataFieldsDecEq fs gs with
    | isTrue h => isTrue (by rw [h])
    | isFalse h => isFalse (by simp [h])
  | .obj _, .arr _ => isFalse (by simp)
  | .arr _, .undef => isFalse (by simp)
  | .arr _, .val _ => isFalse (by simp)
  | .arr _, .obj _ => isFalse (by simp)
  | .arr xs, .arr ys =>
    match rdataItemsDecEq xs ys with
    | isTrue h => isTrue (by rw [h])
    | isFalse h => isFalse (by simp [h])
termination_by a => (sizeOf a, 0)

def rdataFieldsDecEq :
    (a b : List (String × RData)) → Decidable (a = b)
  | [], [] => isTrue rfl
  | [], _ :: _ => isFalse (by simp)
  | _ :: _, [] => isFalse (by simp)
  | (k, a) :: fs, (k2, b) :: gs =>
    have d1 : Decidable (a = b) := rdataDecEq a b
    have d2 : Decidable (fs = gs) := rdataFieldsDecEq fs gs
    decidable_of_iff (k = k2 ∧ a = b ∧ fs = gs) (by
      constructor
      · rintro ⟨h1, h2, h3⟩
        rw [h1, h2, h3]
      · intro h
        injection h with h1 h2
        injection h1 with h3 h4
        exact ⟨h3, h4, h2⟩)
termination_by a => (sizeOf a, 1)

def rdataItemsDecEq : (a b : List RData) → Decidable (a = b)
  | [], [] => isTrue rfl
  | [], _ :: _ => isFalse (by simp)
  | _ :: _, [] => isFalse (by simp)
  | x :: xs, y :: ys =>
    have d1 : Decidable (x = y) := rdataDecEq x y
    have d2 : Decidable (xs = ys) := rdataItemsDecEq xs ys
    decidable_of_iff (x = y ∧ xs = ys) (by
      constructor
      · rintro ⟨h1, h2⟩
        rw [h1, h2]
      · intro h
        injection h with h1 h2
        exact ⟨h1, h2⟩)
termination_by a => (sizeOf a, 1)

end

instance : DecidableEq RData := rdataDecEq

/-- The reader's seen-records set: an object keyed by dataID, in first-visit
order. -/
def seenInsert (seen : List DataID) (d : DataID) : List DataID :=
  if d ∈ seen then seen else seen ++ [d]

mutual

/-- Read a list of selections against a record. -/
def readSelections (source : RelayRecordSource.Source) (r : Record)
    (sels : List Selection) (seen : List DataID) :
    List (String × RData) × Bool × List DataID :=
  match sels with
  | [] => ([], false, seen)
  | sel :: rest =>
    let a := readSelection source r sel seen
    let b := readSelections source r rest a.2.2
    (a.1 :: b.1, a.2.1 || b.2.1, b.2.2)
termination_by (sizeOf sels, 1, 0)

/-- Read one selection against a record, producing the field, a
missing-data flag, and the accumulated seen records. -/
def readSelection (source : RelayRecordSource.Source) (r : Record)
    (sel : Selection) (seen : List DataID) :
    (String × RData) × Bool × List DataID :=
  match sel with
  | .scalarField k =>
    match RelayModernRecord.getValue r k with
    | none => ((k, RData.undef), true, seen)
    | some v => ((k, RData.val v), false, seen)
  | .linkedField k children =>
    match RelayModernRecord.getValue r k with
    | none => ((k, RData.undef), true, seen)
    | some FieldValue.vNull => ((k, RData.val FieldValue.vNull), false, seen)
    | some (FieldValue.vRef id) =>
      let a := readRecordData source id children seen
      ((k, a.1), a.2.1, a.2.2)
    | some (FieldValue.vRefs ids) =>
      let a := readPlural source ids children seen
      ((k, RData.arr a.1), a.2.1, a.2.2)
    | some _ => ((k, RData.undef), true, seen)
termination_by (sizeOf sel, 0, 0)

/-- Read a plural linked field, preserving null holes. -/
def readPlural (source : RelayRecordSource.Source) (ids : List (Option DataID))
    (children : List Selection) (seen : List DataID) :
    List RData × Bool × List DataID :=
  match ids with
  | [] => ([], false, seen)
  | none :: rest =>
    let b := readPlural source rest children seen
    (RData.val FieldValue.vNull :: b.1, b.2.1, b.2.2)
  | some id :: rest =>
    let a := readRecordData source id children seen
    let b := readPlural source rest children a.2.2
    (a.1 :: b.1, a.2.1 || b.2.1, b.2.2)
termination_by (sizeOf children, 3, sizeOf ids)

/-- Read the record at `id`: visit it (recording it in seen records), then
apply the missing-root policy or recurse into the selections. -/
def readRecordData (source : RelayRecordSource.Source) (id : DataID)
    (sels : List Selection) (seen : List DataID) :
    RData × Bool × List DataID :=
  let seen2 := seenInsert seen id
  match RelayRecordSource.get source id with
  | none => (RData.undef, true, seen2)
  | some none => (RData.val FieldValue.vNull, false, seen2)
  | some (some r) =>
    let a := readSelections source r sels seen2
    (RData.obj a.1, a.2.1, a.2.2)
termination_by (sizeOf sels, 2, 0)

end

/-- A materialized read result (spec section 3, "Snapshot").  The owner is
an opaque operation identifier. -/
structure Snapshot where
  data : RData
  isMissingData : Bool
  seenRecords : List DataID
  selector : ReaderSelector
  owner : Nat

namespace RelayReader

/-- `Modelled from the spec:` `RelayReader.read(source, selector, owner)`. -/
def read (source : RelayRecordSource.Source) (selector : ReaderSelector)
    (owner : Nat) : Snapshot :=
  let a := readRecordData source selector.dataID selector.selections []
  { data := a.1, isMissingData := a.2.1, seenRecords := a.2.2,
    selector := selector, owner := owner }

end RelayReader

/-! ## Reference marker

`Modelled from the spec:` `RelayReferenceMarker.js` is not among the
sources.  Spec section 4.4: the marker traverses a normalization selector
over a source and "adds every dataID visited to an out-parameter set; it
never reads field data except linked references and typenames". -/

mutual

def markSelections (source : RelayRecordSource.Source) (r : Record)
    (sels : List Selection) (refs : List DataID) : List DataID :=
  match sels with
  | [] => refs
  | sel :: rest => markSelections source r rest (markSelection source r sel refs)
termination_by (sizeOf sels, 1, 0)

def markSelection (source : RelayRecordSource.Source) (r : Record)
    (sel : Selection) (refs : List DataID) : List DataID :=
  match sel with
  | .scalarField _ => refs
  | .linkedField k children =>
    match RelayModernRecord.getValue r k with
    | some (FieldValue.vRef id) => markRecordID source id children refs
    | some (FieldValue.vRefs ids) => markPlural source ids children refs
    | _ => refs
termination_by (sizeOf sel, 0, 0)

def markPlural (source : RelayRecordSource.Source) (ids : List (Option DataID))
    (children : List Selection) (refs : List DataID) : List DataID :=
  match ids with
  | [] => refs
  | none :: rest => markPlural source rest children refs
  | some id :: rest =>
    markPlural source rest children (markRecordID source id children refs)
termination_by (sizeOf children, 3, sizeOf ids)

/-- Visit a dataID: record it as referenced, then traverse its record's
selections when the record exists. -/
def markRecordID (source : RelayRecordSource.Source) (id : DataID)
    (sels : List Selection) (refs : List DataID) : List DataID :=
  let refs2 := seenInsert refs id
  match RelayRecordSource.get source id with
  | some (some r) => markSelections source r sels refs2
  | _ => refs2
termination_by (sizeOf sels, 2, 0)

end

/-- `RelayReferenceMarker.mark(source, selector, references)`: visit from
the selector's root dataID. -/
def referenceMarkerMark (source : RelayRecordSource.Source)
    (selector : ReaderSelector) (refs : List DataID) : List DataID :=
  markRecordID source selector.dataID selector.selections refs

/-! ## Snapshot recycling and overlap test -/

/-- `Modelled from the spec:` `recycleNodesInto(prev, next)`
(`recycleNodesInto.js` is not among the sources).  Spec section 4.7: a
structural diff replaces value-equal subtrees of the new tree by the
previous subtree reference, so the function returns the previous tree
exactly when the two trees are deep-equal; pointer identity below the root
is not observable in the value semantics, so the observable content is the
root-level choice. -/
def recycleNodesInto (prev next : RData) : RData :=
  if prev = next then prev else next

theorem recycleNodesInto_eq_next (prev next : RData) :
    recycleNodesInto prev next = next := by
  unfold recycleNodesInto
  split
  · assumption
  · rfl

/-- `Modelled from the spec:` `hasOverlappingIDs(snapshot, updatedRecordIDs)`
(`hasOverlappingIDs.js` is not among the sources).  Spec section 4.5: the
intersection test uses the snapshot's `seenRecords` and the updated set,
both keyed by DataID. -/
def hasOverlappingIDs (snapshot : Snapshot) (updatedIDs : List DataID) :
    Bool :=
  snapshot.seenRecords.any (fun d => decide (d ∈ updatedIDs))

/-! ## The store (RelayModernStore, RelayPublishQueue.js lines 473-668) -/

/-- A subscription holds the previous snapshot; the callback closure is
modelled by reporting fired snapshots from `notify`. -/
structure Subscription where
  snapshot : Snapshot

structure RelayModernStore where
  recordSource : RelayRecordSource.Source
  updatedRecordIDs : List DataID
  subscriptions : List Subscription
  roots : List (Nat × ReaderSelector)
  gcHoldCounter : Int
  shouldScheduleGC : Bool
  hasScheduledGC : Bool

namespace RelayModernStore

/-- `publish(source)` merges the source into the canonical record source,
accumulating changed dataIDs into `_updatedRecordIDs` (lines 561-563). -/
def publish (st : RelayModernStore) (source : RelayRecordSource.Source) :
    RelayModernStore :=
  let r := updateTargetFromSource st.recordSource source st.updatedRecordIDs
  { st with recordSource := r.1, updatedRecordIDs := r.2 }

/-- `_updateSubscription(subscription)` (lines 603-626): skip unless the
snapshot's seen records overlap the updated IDs; otherwise re-read with the
same selector and owner, recycle the data, store the new snapshot, and
report the owner and the callback invocation only when the recycled data
is not (reference-)equal to the old data. -/
def updateSubscription (source : RelayRecordSource.Source)
    (updatedIDs : List DataID) (sub : Subscription) :
    Subscription × Option Nat × Option Snapshot :=
  if hasOverlappingIDs sub.snapshot updatedIDs then
    let next0 := RelayReader.read source sub.snapshot.selector
      sub.snapshot.owner
    let nextData := recycleNodesInto sub.snapshot.data next0.data
    let nextSnapshot := { next0 with data := nextData }
    if nextData = sub.snapshot.data then (⟨nextSnapshot⟩, none, none)
    else (⟨nextSnapshot⟩, some sub.snapshot.owner, some nextSnapshot)
  else (sub, none, none)

/-- `notify()` (lines 549-559): walk the subscriptions, collect the owners
of updated snapshots, and clear the updated-record-ID set at the end.  The
third component collects the snapshots passed to invoked callbacks. -/
def notify (st : RelayModernStore) :
    RelayModernStore × List Nat × List Snapshot :=
  let step := fun (acc : List Subscription × List Nat × List Snapshot)
      (sub : Subscription) =>
    let r := updateSubscription st.recordSource st.updatedRecordIDs sub
    (acc.1 ++ [r.1], acc.2.1 ++ r.2.1.toList, acc.2.2 ++ r.2.2.toList)
  let res := st.subscriptions.foldl step ([], [], [])
  ({ st with subscriptions := res.1, updatedRecordIDs := [] },
   res.2.1, res.2.2)

/-- The store effect of `holdGC()` (lines 577-589): increment the hold
counter. -/
def holdGC (st : RelayModernStore) : RelayModernStore :=
  { st with gcHoldCounter := st.gcHoldCounter + 1 }

/-- `_scheduleGC()` (lines 628-641): defer while a hold is active,
coalesce with an already-scheduled run, otherwise schedule one (the
scheduled thunk runs asynchronously; its state effect here is the
`_hasScheduledGC` flag). -/
def scheduleGC (st : RelayModernStore) : RelayModernStore :=
  if st.gcHoldCounter > 0 then { st with shouldScheduleGC := true }
  else if st.hasScheduledGC then st
  else { st with hasScheduledGC := true }

/-- The dispose closure returned by `holdGC()` (lines 579-587): decrement
only when the counter is positive; on reaching zero with a pending GC,
schedule it and clear the pending flag. -/
def disposeGCHold (st : RelayModernStore) : RelayModernStore :=
  if st.gcHoldCounter > 0 then
    let st2 := { st with gcHoldCounter := st.gcHoldCounter - 1 }
    if st2.gcHoldCounter = 0 ∧ st2.shouldScheduleGC then
      let st3 := scheduleGC st2
      { st3 with shouldScheduleGC := false }
    else st2
  else st

/-- The references marked from all retained roots, in root order
(lines 644-653). -/
def gcReferences (st : RelayModernStore) : List DataID :=
  st.roots.foldl
    (fun refs root => referenceMarkerMark st.recordSource root.2 refs) []

/-- `__gc()` (lines 643-667): mark every dataID traversable from a root;
if nothing is referenced, clear the entire source; otherwise remove every
dataID that was not reached. -/
def gc (st : RelayModernStore) : RelayModernStore :=
  let references := gcReferences st
  if references = [] then { st with recordSource := RelayRecordSource.clear }
  else
    let storeIDs := RelayRecordSource.getRecordIDs st.recordSource
    let swept := storeIDs.foldl
      (fun src dataID =>
        if dataID ∈ references then src
        else RelayRecordSource.remove src dataID)
      st.recordSource
    { st with recordSource := swept }

end RelayModernStore

/-! ## Record source mutator

`Modelled from the spec:` `RelayRecordSourceMutator.js` and
`RelayRecordSourceProxy.js` are not among the sources.  Spec section 4.1:
the mutator overlays a sink on a base, optionally with a backup; all reads
fall through sink then base; all writes go to the sink only; when a field
is first written on a record that exists only in the base, the base record
is shallow-copied into the sink before mutation, and the pre-write state of
that record is saved to the backup (if present, first touch wins).  Spec
section 9 directs that user updaters be modelled as sequences of operations
over the proxy capability set; the operations with store effects are
`create`, `delete` and the value setters (all setters write a storage key,
so a single `setValue` constructor covers them), plus `publishSource`
(handled below by `proxyPublishSource`). -/

/-- The primitive mutating proxy operations. -/
inductive BasicOp where
  | setValue (d : DataID) (k : String) (v : FieldValue)
  | create (d : DataID) (typename : String)
  | deleteRecord (d : DataID)
deriving DecidableEq

/-- Mutator state: the staged sink and the accumulated backup; the
read-only base is passed separately. -/
structure MutState where
  sink : RelayRecordSource.Source
  backup : RelayRecordSource.Source
deriving DecidableEq

/-- Encode the base state of a dataID as the backup entry that restores it:
a record restores by merge, a tombstone by delete, absence by the unpublish
sentinel. -/
def encodeBaseEntry : Option (Option Record) → Option Record
  | some (some r) => some r
  | some none => none
  | none => some UNPUBLISH_RECORD_SENTINEL

/-- Record the pre-write state of `d` into the backup on first touch. -/
def backupFirstTouch (base : RelayRecordSource.Source) (ms : MutState)
    (d : DataID) : RelayRecordSource.Source :=
  match RelayRecordSource.get ms.backup d with
  | some _ => ms.backup
  | none =>
    RelayRecordSource.set ms.backup d
      (encodeBaseEntry (RelayRecordSource.get base d))

/-- Read through the mutator: sink first, then base. -/
def viewGet (base : RelayRecordSource.Source) (ms : MutState) (d : DataID) :
    Option (Option Record) :=
  match RelayRecordSource.get ms.sink d with
  | some e => some e
  | none => RelayRecordSource.get base d

/-- Apply one primitive proxy operation to the mutator state.  Operations
that the JS proxy rejects with an invariant error (writing a field of a
nonexistent or deleted record, creating an existing record) are modelled
as no-ops; the claims only quantify over successfully applied updates. -/
def applyBasic (base : RelayRecordSource.Source) (ms : MutState)
    (op : BasicOp) : MutState :=
  match op with
  | .setValue d k v =>
    match RelayRecordSource.get ms.sink d with
    | some (some r) =>
      let staged := some (RelayModernRecord.setValue r k v)
      { ms with sink := RelayRecordSource.set ms.sink d staged }
    | some none => ms
    | none =>
      match RelayRecordSource.get base d with
      | some (some r) =>
        let staged := some (RelayModernRecord.setValue r k v)
        { sink := RelayRecordSource.set ms.sink d staged,
          backup := backupFirstTouch base ms d }
      | _ => ms
  | .create d typename =>
    match viewGet base ms d with
    | some (some _) => ms
    | _ =>
      let fresh : Option Record :=
        some [("__id", FieldValue.vStr d),
              ("__typename", FieldValue.vStr typename)]
      { sink := RelayRecordSource.set ms.sink d fresh,
        backup := backupFirstTouch base ms d }
  | .deleteRecord d =>
    { sink := RelayRecordSource.set ms.sink d none,
      backup := backupFirstTouch base ms d }

/-- The `__typename` carried by a source record, for `create` during
`publishSource`. -/
def recordTypename (r : Record) : String :=
  match RelayModernRecord.getValue r "__typename" with
  | some (FieldValue.vStr s) => s
  | _ => ""

/-- Stage all fields of a record through the mutator. -/
def copyFields (base : RelayRecordSource.Source) (ms : MutState)
    (d : DataID) (r : Record) : MutState :=
  r.foldl (fun m p => applyBasic base m (.setValue d p.1 p.2)) ms

/-- `RelayRecordSourceProxy.publishSource`: write a whole record source
through the mutator, creating records that do not yet exist in the
combined view and deleting tombstoned ones. -/
def proxyPublishSource (base : RelayRecordSource.Source) (ms : MutState)
    (src : RelayRecordSource.Source) : MutState :=
  src.foldl
    (fun m p =>
      match p.2 with
      | none => applyBasic base m (.deleteRecord p.1)
      | some r =>
        let m2 :=
          match viewGet base m p.1 with
          | some (some _) => m
          | _ => applyBasic base m (.create p.1 (recordTypename r))
        copyFields base m2 p.1 r)
    ms

/-! ## The publish queue (RelayPublishQueue, RelayPublishQueue.js lines 70-397) -/

/-- An optimistic update.  The `id` stands for JS object identity (two
distinct updater objects with identical contents are distinct set members).
The `storeUpdater` variant is a user closure modelled as its sequence of
proxy operations (spec section 9); `throws` makes it raise when invoked.
The `{source, fieldPayloads}` variant publishes a raw source through the
proxy.  The `(operation, response, updater)` variant requires the response
normalizer, which is outside the modelled fragment. -/
inductive OptKind where
  | storeUpdater (ops : List BasicOp) (throws : Bool)
  | sourceUpdate (src : RelayRecordSource.Source)
deriving DecidableEq

structure OptimisticUpdate where
  id : Nat
  kind : OptKind
deriving DecidableEq

/-- A non-optimistic client updater queued by `commitUpdate`, modelled like
a store updater closure. -/
structure Updater where
  id : Nat
  ops : List BasicOp
  throws : Bool
deriving DecidableEq

/-- An entry of `_pendingData`: a payload (pre-normalized source plus an
optional user updater, run unguarded in `_getSourceFromPayload`) or a raw
source from `commitSource`. -/
inductive DataToCommit where
  | payload (src : RelayRecordSource.Source) (updater : Option Updater)
  | source (src : RelayRecordSource.Source)
deriving DecidableEq

structure RelayPublishQueue where
  backup : RelayRecordSource.Source
  pendingBackupRebase : Bool
  pendingData : List DataToCommit
  pendingUpdaters : List Updater
  pendingOptimisticUpdates : List OptimisticUpdate
  appliedOptimisticUpdates : List OptimisticUpdate
  gcHold : Bool
deriving DecidableEq

namespace RelayPublishQueue

/-- The initial queue state built by the constructor (lines 94-109). -/
def initial : RelayPublishQueue :=
  { backup := RelayRecordSource.create
    pendingBackupRebase := false
    pendingData := []
    pendingUpdaters := []
    pendingOptimisticUpdates := []
    appliedOptimisticUpdates := []
    gcHold := false }

/-- `applyUpdate(updater)` (lines 114-122): queue an optimistic update.
The JS code raises an invariant error on a duplicate; the model skips the
duplicate, and the claims only exercise non-duplicate applications. -/
def applyUpdate (q : RelayPublishQueue) (u : OptimisticUpdate) :
    RelayPublishQueue :=
  if u ∈ q.appliedOptimisticUpdates ∨ u ∈ q.pendingOptimisticUpdates then q
  else { q with pendingOptimisticUpdates := q.pendingOptimisticUpdates ++ [u] }

/-- `revertUpdate(updater)` (lines 127-135). -/
def revertUpdate (q : RelayPublishQueue) (u : OptimisticUpdate) :
    RelayPublishQueue :=
  if u ∈ q.pendingOptimisticUpdates then
    { q with pendingOptimisticUpdates := q.pendingOptimisticUpdates.erase u }
  else if u ∈ q.appliedOptimisticUpdates then
    { q with pendingBackupRebase := true,
             appliedOptimisticUpdates := q.appliedOptimisticUpdates.erase u }
  else q

/-- `revertAll()` (lines 140-144). -/
def revertAll (q : RelayPublishQueue) : RelayPublishQueue :=
  { q with pendingBackupRebase := true,
           pendingOptimisticUpdates := [],
           appliedOptimisticUpdates := [] }

/-- `commitPayload(operation, payload, updater)` (lines 149-159). -/
def commitPayload (q : RelayPublishQueue) (src : RelayRecordSource.Source)
    (updater : Option Updater) : RelayPublishQueue :=
  { q with pendingBackupRebase := true,
           pendingData := q.pendingData ++ [DataToCommit.payload src updater] }

/-- `commitUpdate(updater)` (lines 165-168). -/
def commitUpdate (q : RelayPublishQueue) (u : Updater) : RelayPublishQueue :=
  { q with pendingBackupRebase := true,
           pendingUpdaters := q.pendingUpdaters ++ [u] }

/-- `commitSource(source)` (lines 175-178). -/
def commitSource (q : RelayPublishQueue) (src : RelayRecordSource.Source) :
    RelayPublishQueue :=
  { q with pendingBackupRebase := true,
           pendingData := q.pendingData ++ [DataToCommit.source src] }

/-- `_getSourceFromPayload(payload)` (lines 205-236): a mutator is built
over the store source with the payload's pre-normalized sink as overlay
(no backup), the optional user updater runs UNGUARDED — `none` models the
exception propagating — and the sink is returned. -/
def getSourceFromPayload (storeSource : RelayRecordSource.Source)
    (src : RelayRecordSource.Source) (updater : Option Updater) :
    Option RelayRecordSource.Source :=
  match updater with
  | none => some src
  | some u =>
    if u.throws then none
    else some ((u.ops.foldl (applyBasic storeSource) ⟨src, []⟩).sink)

/-- `_commitData()` (lines 238-252): publish each pending entry in order;
an exception from an unguarded payload updater aborts mid-loop, leaving the
remaining state as is (the JS `forEach` never reaches `clear`). -/
def commitData (st : RelayModernStore) (ds : List DataToCommit) :
    RelayModernStore × Bool :=
  match ds with
  | [] => (st, false)
  | d :: rest =>
    match d with
    | .source src => commitData (st.publish src) rest
    | .payload src updater =>
      match getSourceFromPayload st.recordSource src updater with
      | none => (st, true)
      | some s => commitData (st.publish s) rest

/-- `_commitUpdaters()` (lines 254-275): one shared sink; each updater runs
guarded over a fresh mutator on the store source (throwers are caught and
contribute nothing); the sink is published once. -/
def commitUpdatersPhase (st : RelayModernStore) (us : List Updater) :
    RelayModernStore :=
  if us = [] then st
  else
    let sink := us.foldl
      (fun sink u =>
        if u.throws then sink
        else ((u.ops.foldl (applyBasic st.recordSource) ⟨sink, []⟩).sink))
      RelayRecordSource.create
    st.publish sink

/-- Dispatch one optimistic update through the shared mutator
(lines 296-340 and 345-390); a throwing store updater is caught by
`ErrorUtils.applyWithGuard` and contributes nothing. -/
def applyOptimisticUpdate (base : RelayRecordSource.Source) (ms : MutState)
    (u : OptimisticUpdate) : MutState :=
  match u.kind with
  | .storeUpdater ops throws =>
    if throws then ms else ops.foldl (applyBasic base) ms
  | .sourceUpdate src => proxyPublishSource base ms src

/-- `_applyUpdates()` (lines 277-396): when there are new optimistic
updates, or a rebase is pending with applied ones, build one mutator
`(store source, fresh sink, queue backup)`, re-run the applied updates
(rebase), apply and absorb the new ones, and publish the sink; the
accumulated backup becomes the queue's backup. -/
def applyUpdatesPhase (q : RelayPublishQueue) (st : RelayModernStore) :
    RelayPublishQueue × RelayModernStore :=
  if q.pendingOptimisticUpdates ≠ [] ∨
      (q.pendingBackupRebase ∧ q.appliedOptimisticUpdates ≠ []) then
    let base := st.recordSource
    let ms0 : MutState := ⟨RelayRecordSource.create, q.backup⟩
    let ms1 :=
      if q.pendingBackupRebase ∧ q.appliedOptimisticUpdates ≠ [] then
        q.appliedOptimisticUpdates.foldl (applyOptimisticUpdate base) ms0
      else ms0
    let ms2 := q.pendingOptimisticUpdates.foldl (applyOptimisticUpdate base) ms1
    ({ q with backup := ms2.backup,
              pendingOptimisticUpdates := [],
              appliedOptimisticUpdates :=
                q.appliedOptimisticUpdates ++ q.pendingOptimisticUpdates },
     st.publish ms2.sink)
  else (q, st)

/-- The result of `run()`: the queue and store afterwards, the owners
returned from `notify`, the snapshots passed to subscription callbacks, and
whether an exception aborted the run. -/
structure RunResult where
  queue : RelayPublishQueue
  store : RelayModernStore
  owners : List Nat
  fired : List Snapshot
  aborted : Bool

/-- The remainder of `run()` after `_commitData` succeeded. -/
def runRest (q : RelayPublishQueue) (st : RelayModernStore) : RunResult :=
  let st2 := commitUpdatersPhase st q.pendingUpdaters
  let q2 := { q with pendingUpdaters := [] }
  let r3 := applyUpdatesPhase q2 st2
  let q4 : RelayPublishQueue := { r3.1 with pendingBackupRebase := false }
  let reconciled : RelayPublishQueue × RelayModernStore :=
    if q4.appliedOptimisticUpdates.length > 0 then
      if q4.gcHold then (q4, r3.2)
      else ({ q4 with gcHold := true }, r3.2.holdGC)
    else
      if q4.gcHold then ({ q4 with gcHold := false }, r3.2.disposeGCHold)
      else (q4, r3.2)
  let n := reconciled.2.notify
  { queue := reconciled.1, store := n.1, owners := n.2.1, fired := n.2.2,
    aborted := false }

/-- `run()` (lines 183-203): publish the backup first when a rebase is
pending and the backup is non-empty, resetting the backup; then commit
data, commit updaters, apply optimistic updates, reset the rebase flag,
reconcile the GC hold, and notify.  An exception from an unguarded payload
updater propagates: the run aborts with the partially mutated state. -/
def run (q : RelayPublishQueue) (st : RelayModernStore) : RunResult :=
  let undone :=
    if q.pendingBackupRebase ∧ q.backup ≠ [] then
      (st.publish q.backup, { q with backup := RelayRecordSource.create })
    else (st, q)
  let st1 := undone.1
  let q1 := undone.2
  let c := commitData st1 q1.pendingData
  if c.2 then
    { queue := q1, store := c.1, owners := [], fired := [], aborted := true }
  else
    runRest { q1 with pendingData := [] } c.1

end RelayPublishQueue

namespace RelayModernStore

/-- A store as built by the constructor (lines 486-513) over an initial
record source: no subscriptions, no retained roots, hold counter zero. -/
def create (source : RelayRecordSource.Source) : RelayModernStore :=
  { recordSource := source
    updatedRecordIDs := []
    subscriptions := []
    roots := []
    gcHoldCounter := 0
    shouldScheduleGC := false
    hasScheduledGC := false }

end RelayModernStore

/-! ## Claims about revertUpdate / revertAll (C6, C10) -/

/-- C6: for every optimistic update `u`: if `u` is pending (applied not yet
run), `revertUpdate(u)` removes it from the pending set without setting the
rebase flag; if `u` is applied (the pending and applied sets are disjoint
by construction, expressed by the `u ∉ pending` hypothesis matching the
code's else-if), `revertUpdate(u)` sets `pendingBackupRebase` and removes
`u` from the applied set; and `revertAll()` clears both sets and sets
`pendingBackupRebase`.  The record updates pin every other queue field to
its old value. -/
theorem claim6_revert_semantics (q : RelayPublishQueue)
    (u : OptimisticUpdate) :
    (u ∈ q.pendingOptimisticUpdates →
      q.revertUpdate u =
        { q with pendingOptimisticUpdates :=
            q.pendingOptimisticUpdates.erase u }) ∧
    (u ∉ q.pendingOptimisticUpdates → u ∈ q.appliedOptimisticUpdates →
      q.revertUpdate u =
        { q with pendingBackupRebase := true,
                 appliedOptimisticUpdates :=
                   q.appliedOptimisticUpdates.erase u }) ∧
    q.revertAll =
      { q with pendingBackupRebase := true,
               pendingOptimisticUpdates := [],
               appliedOptimisticUpdates := [] } := by
  refine ⟨?_, ?_, rfl⟩
  · intro h
    simp [RelayPublishQueue.revertUpdate, h]
  · intro h1 h2
    simp [RelayPublishQueue.revertUpdate, h1, h2]

/-- Witness for C6 at a concrete queue holding one pending and one applied
update. -/
theorem claim6_witness :
    (let u0 : OptimisticUpdate := ⟨0, OptKind.storeUpdater [] false⟩
     let u1 : OptimisticUpdate := ⟨1, OptKind.storeUpdater [] false⟩
     let q : RelayPublishQueue :=
       { RelayPublishQueue.initial with
           pendingOptimisticUpdates := [u0],
           appliedOptimisticUpdates := [u1] }
     q.revertUpdate u0 =
        { q with pendingOptimisticUpdates := [] } ∧
      q.revertUpdate u1 =
        { q with pendingBackupRebase := true,
                 appliedOptimisticUpdates := [] }) := by
  constructor
  · have h := (claim6_revert_semantics
      { RelayPublishQueue.initial with
          pendingOptimisticUpdates := [⟨0, OptKind.storeUpdater [] false⟩],
          appliedOptimisticUpdates := [⟨1, OptKind.storeUpdater [] false⟩] }
      ⟨0, OptKind.storeUpdater [] false⟩).1 (by decide)
    simpa using h
  · have h := ((claim6_revert_semantics
      { RelayPublishQueue.initial with
          pendingOptimisticUpdates := [⟨0, OptKind.storeUpdater [] false⟩],
          appliedOptimisticUpdates := [⟨1, OptKind.storeUpdater [] false⟩] }
      ⟨1, OptKind.storeUpdater [] false⟩).2).1 (by decide) (by decide)
    simpa using h

/-- C10: reverting an update that is in neither set leaves the entire queue
state unchanged (all fields), and raises no error (the operation is a total
function with no error path). -/
theorem claim10_revert_frame (q : RelayPublishQueue) (u : OptimisticUpdate)
    (h1 : u ∉ q.pendingOptimisticUpdates)
    (h2 : u ∉ q.appliedOptimisticUpdates) :
    q.revertUpdate u = q := by
  simp [RelayPublishQueue.revertUpdate, h1, h2]

/-- Witness for C10: a queue with unrelated pending and applied updates is
untouched by reverting an absent update. -/
theorem claim10_witness :
    (let u0 : OptimisticUpdate := ⟨0, OptKind.storeUpdater [] false⟩
     let u1 : OptimisticUpdate := ⟨1, OptKind.storeUpdater [] false⟩
     let u2 : OptimisticUpdate := ⟨2, OptKind.storeUpdater [] false⟩
     let q : RelayPublishQueue :=
       { RelayPublishQueue.initial with
           pendingOptimisticUpdates := [u0],
           appliedOptimisticUpdates := [u1] }
     q.revertUpdate u2 = q) :=
  claim10_revert_frame _ _ (by decide) (by decide)

/-! ## Claim C9: the GC hold counter -/

/-- One external operation on the store's GC hold state: a `holdGC()` call
or a dispose of some disposable previously returned by `holdGC()` (the
dispose closures all act identically on the store, so disposing the same
one repeatedly is a sequence of `dispose` operations). -/
inductive GCOp where
  | hold
  | dispose
deriving DecidableEq

def applyGCOp (st : RelayModernStore) : GCOp → RelayModernStore
  | .hold => st.holdGC
  | .dispose => st.disposeGCHold

def applyGCOps (st : RelayModernStore) (ops : List GCOp) : RelayModernStore :=
  ops.foldl applyGCOp st

theorem scheduleGC_gcHoldCounter (st : RelayModernStore) :
    (st.scheduleGC).gcHoldCounter = st.gcHoldCounter := by
  unfold RelayModernStore.scheduleGC
  split
  · rfl
  · split <;> rfl

theorem disposeGCHold_counter (st : RelayModernStore) :
    (st.disposeGCHold).gcHoldCounter =
      if 0 < st.gcHoldCounter then st.gcHoldCounter - 1
      else st.gcHoldCounter := by
  unfold RelayModernStore.disposeGCHold
  by_cases hc : st.gcHoldCounter > 0
  · simp only [hc, if_true, gt_iff_lt]
    split
    · simp [scheduleGC_gcHoldCounter]
    · rfl
  · simp [hc]

theorem gcHoldCounter_nonneg_step (st : RelayModernStore) (op : GCOp)
    (h : 0 ≤ st.gcHoldCounter) : 0 ≤ (applyGCOp st op).gcHoldCounter := by
  cases op with
  | hold =>
    simp only [applyGCOp, RelayModernStore.holdGC]
    omega
  | dispose =>
    simp only [applyGCOp]
    rw [disposeGCHold_counter]
    split <;> omega

/-- C9: starting from a nonnegative hold counter, every sequence of
`holdGC()` calls and disposes (including double disposes) keeps the counter
nonnegative, and a dispose when the counter is already zero is a no-op on
the whole store state. -/
theorem claim9_gc_hold_counter (st : RelayModernStore) (ops : List GCOp)
    (h : 0 ≤ st.gcHoldCounter) :
    0 ≤ (applyGCOps st ops).gcHoldCounter ∧
      (st.gcHoldCounter = 0 → st.disposeGCHold = st) := by
  constructor
  · induction ops generalizing st with
    | nil => exact h
    | cons op rest ih =>
      exact ih (applyGCOp st op) (gcHoldCounter_nonneg_step st op h)
  · intro h0
    unfold RelayModernStore.disposeGCHold
    rw [if_neg (by omega)]

/-- Witness for C9: hold, double dispose, dispose again at zero. -/
theorem claim9_witness :
    (let st := RelayModernStore.create []
     let ops := [GCOp.hold, GCOp.dispose, GCOp.dispose, GCOp.dispose]
     0 ≤ (applyGCOps st ops).gcHoldCounter ∧
       (st.gcHoldCounter = 0 → st.disposeGCHold = st)) :=
  claim9_gc_hold_counter (RelayModernStore.create []) _ (by decide)

/-! ## Claim C8: missing root policy of the reader -/

/-- C8: when the root dataID is tombstoned, the snapshot's data is null;
when it is absent, the data is undefined and `isMissingData` is set; in
both cases the root dataID is recorded in `seenRecords`. -/
theorem claim8_missing_root_policy (source : RelayRecordSource.Source)
    (sel : ReaderSelector) (owner : Nat) :
    (RelayRecordSource.get source sel.dataID = some none →
      (RelayReader.read source sel owner).data = RData.val FieldValue.vNull ∧
        sel.dataID ∈ (RelayReader.read source sel owner).seenRecords) ∧
    (RelayRecordSource.get source sel.dataID = none →
      (RelayReader.read source sel owner).data = RData.undef ∧
        (RelayReader.read source sel owner).isMissingData = true ∧
        sel.dataID ∈ (RelayReader.read source sel owner).seenRecords) := by
  constructor
  · intro h
    simp [RelayReader.read, readRecordData, h, seenInsert]
  · intro h
    simp [RelayReader.read, readRecordData, h, seenInsert]

/-- Witness for C8: the two test scenarios, a source where dataID "4" is
tombstoned and an empty source where it is unfetched. -/
theorem claim8_witness :
    (let sel : ReaderSelector := ⟨"4", [Selection.scalarField "name"]⟩
     ((RelayReader.read [("4", none)] sel 0).data =
        RData.val FieldValue.vNull ∧
       "4" ∈ (RelayReader.read [("4", none)] sel 0).seenRecords) ∧
      ((RelayReader.read [] sel 0).data = RData.undef ∧
        (RelayReader.read [] sel 0).isMissingData = true ∧
        "4" ∈ (RelayReader.read [] sel 0).seenRecords)) := by
  constructor
  · exact (claim8_missing_root_policy [("4", none)]
      ⟨"4", [Selection.scalarField "name"]⟩ 0).1 (by rfl)
  · exact (claim8_missing_root_policy []
      ⟨"4", [Selection.scalarField "name"]⟩ 0).2 (by rfl)

/-! ## Claim C3: garbage collection reachability -/

theorem gcSweep_lookup (ids : List DataID) (refs : List DataID)
    (src : RelayRecordSource.Source) (d : DataID) :
    assocGet (ids.foldl
        (fun s i => if i ∈ refs then s else assocRemove s i) src) d =
      if d ∈ refs then assocGet src d
      else if d ∈ ids then none else assocGet src d := by
  induction ids generalizing src with
  | nil =>
    by_cases h : d ∈ refs <;> simp [h]
  | cons i rest ih =>
    simp only [List.foldl_cons]
    rw [ih]
    by_cases hr : d ∈ refs
    · simp only [hr, if_true]
      by_cases hi : i ∈ refs
      · simp [hi]
      · simp only [hi, if_false]
        have hne : d ≠ i := fun hh => hi (hh ▸ hr)
        exact assocGet_remove_ne src i d hne
    · simp only [hr, if_false]
      by_cases hd : d ∈ (i :: rest)
      · simp only [hd, if_true]
        rcases List.mem_cons.mp hd with rfl | hd2
        · by_cases hrest : d ∈ rest
          · simp [hrest]
          · simp only [hrest, if_false]
            by_cases hi : d ∈ refs
            · exact absurd hi hr
            · simp [hi, assocGet_remove_self]
        · simp [hd2]
      · have hdi : d ≠ i := fun hh => hd (hh ▸ List.mem_cons_self i rest)
        have hdrest : d ∉ rest := fun hh => hd (List.mem_cons_of_mem i hh)
        simp only [hd, if_false, hdrest]
        by_cases hi : i ∈ refs
        · simp [hi, hdrest]
        · simp [hi, hdrest, assocGet_remove_ne src i d hdi]

/-- C3 (amended): after `__gc()`, the entry of a dataID is its old entry if
the reference marker marked it from some retained root (and anything was
marked at all), and is gone otherwise — i.e. present after GC iff present
before AND marked; when no roots exist or nothing is marked the entire
source is cleared.  (The claim's unconditional "present iff reachable"
fails: the marker records dataIDs it visits even when no record exists at
them, see the counterexample.) -/
theorem claim3_gc_amended (st : RelayModernStore) (d : DataID) :
    RelayRecordSource.get (st.gc).recordSource d =
      if st.gcReferences ≠ [] ∧ d ∈ st.gcReferences then
        RelayRecordSource.get st.recordSource d
      else none := by
  unfold RelayModernStore.gc
  by_cases h : st.gcReferences = []
  · simp [h, RelayRecordSource.clear, RelayRecordSource.get, assocGet]
  · simp only [h, if_false, ne_eq, not_false_iff, true_and]
    show RelayRecordSource.get
      ((RelayRecordSource.getRecordIDs st.recordSource).foldl _
        st.recordSource) d = _
    unfold RelayRecordSource.get RelayRecordSource.remove
      RelayRecordSource.getRecordIDs
    rw [gcSweep_lookup]
    by_cases hr : d ∈ st.gcReferences
    · simp [hr]
    · simp only [hr, if_false]
      by_cases hk : d ∈ st.recordSource.map Prod.fst
      · simp [hk]
      · simp [hk, assocGet_eq_none_of_not_mem_keys st.recordSource d hk]

/-- The store of the C3 counterexample: a retained root selector rooted at
the absent dataID "r", and an unreferenced record "1". -/
def claim3Store : RelayModernStore :=
  { recordSource := [("1", some [("a", FieldValue.vStr "x")])],
    updatedRecordIDs := [], subscriptions := [],
    roots := [(0, ⟨"r", []⟩)],
    gcHoldCounter := 0, shouldScheduleGC := false,
    hasScheduledGC := false }

theorem claim3Store_refs : claim3Store.gcReferences = ["r"] := by
  simp [claim3Store, RelayModernStore.gcReferences, referenceMarkerMark,
    markRecordID, seenInsert, RelayRecordSource.get, assocGet]

/-- Counterexample to C3 as stated: after `__gc()` on `claim3Store`, the
dataID "r" is reachable (the marker visits and marks the root dataID even
though no record exists there) yet not present in the source, so "a dataID
is present iff it is reachable from some retained root" is false. -/
theorem claim3_counterexample :
    ¬ ((RelayRecordSource.get (claim3Store.gc).recordSource "r" ≠ none) ↔
        "r" ∈ claim3Store.gcReferences) := by
  intro hiff
  have habsent :
      RelayRecordSource.get (claim3Store.gc).recordSource "r" = none := by
    unfold RelayModernStore.gc
    rw [claim3Store_refs]
    simp [claim3Store, RelayRecordSource.getRecordIDs,
      RelayRecordSource.remove, assocRemove, RelayRecordSource.get, assocGet]
  have hmem : "r" ∈ claim3Store.gcReferences := by
    rw [claim3Store_refs]
    exact List.mem_singleton.mpr rfl
  exact (hiff.mpr hmem) habsent

/-! ## Claim C4: idempotent publish -/

/-- Wellformedness of one source entry: a stored record has distinct
storage keys (JS objects cannot carry duplicate keys). -/
def entryRecordWF : Option Record → Prop
  | some r => (r.map Prod.fst).Nodup
  | none => True

instance (e : Option Record) : Decidable (entryRecordWF e) := by
  unfold entryRecordWF
  match e with
  | some r => exact inferInstance
  | none => exact inferInstance

/-- Every record stored in the source has distinct storage keys. -/
def sourceRecordsWF (s : RelayRecordSource.Source) : Prop :=
  ∀ p ∈ s, entryRecordWF p.2

instance (s : RelayRecordSource.Source) : Decidable (sourceRecordsWF s) :=
  List.decidableBAll _ s

/-- No entry of the source is the unpublish sentinel record. -/
def noSentinelEntries (s : RelayRecordSource.Source) : Prop :=
  ∀ p ∈ s, p.2 ≠ some UNPUBLISH_RECORD_SENTINEL

instance (s : RelayRecordSource.Source) : Decidable (noSentinelEntries s) :=
  List.decidableBAll _ s

theorem subsumes_self (r : Record) (hnd : (r.map Prod.fst).Nodup) :
    RelayModernRecord.subsumes r r = true := by
  rw [RelayModernRecord.subsumes_iff]
  intro p hp
  exact assocGet_eq_some_of_mem_nodup r p.1 p.2 (by simpa using hp) hnd

theorem update_self (r : Record) (hnd : (r.map Prod.fst).Nodup) :
    RelayModernRecord.update r r = r :=
  RelayModernRecord.update_of_subsumes r r (subsumes_self r hnd)

/-- After one merge of `next`, merging `next` again changes nothing. -/
theorem update_update (t next : Record)
    (hnd : (next.map Prod.fst).Nodup) :
    RelayModernRecord.update (RelayModernRecord.update t next) next =
      RelayModernRecord.update t next := by
  unfold RelayModernRecord.update
  by_cases hs : RelayModernRecord.subsumes t next = true
  · simp [hs]
  · rw [if_neg hs]
    rw [if_pos (RelayModernRecord.subsumes_mergeFields t next hnd)]

/-- Publishing an entry twice over any starting value equals publishing it
once, provided its record has distinct keys. -/
theorem entryApply_idem (x : Option (Option Record)) (e : Option Record)
    (hwf : entryRecordWF e) : entryApply (entryApply x e) e = entryApply x e := by
  match e with
  | none => rfl
  | some r =>
    by_cases hs : r = UNPUBLISH_RECORD_SENTINEL
    · simp [entryApply, hs]
    · simp only [entryApply, hs, if_false]
      unfold entryRecordWF at hwf
      match x with
      | some (some t) =>
        simp only
        rw [update_update t r hwf]
      | some none =>
        simp only
        rw [update_self r hwf]
      | none =>
        simp only
        rw [update_self r hwf]

/-- Publishing an already-published entry never marks the dataID. -/
theorem publishMarks_after_apply (x : Option (Option Record))
    (e : Option Record) (hwf : entryRecordWF e)
    (hs : e ≠ some UNPUBLISH_RECORD_SENTINEL) :
    ¬ publishMarks (entryApply x e) e := by
  match e with
  | none =>
    simp [entryApply, publishMarks]
  | some r =>
    have hr : r ≠ UNPUBLISH_RECORD_SENTINEL := by
      intro hh
      exact hs (by rw [hh])
    unfold entryRecordWF at hwf
    simp only [entryApply, publishMarks, hr, if_false, false_or]
    match x with
    | some (some t) =>
      simp only
      rw [update_update t r hwf]
      simp
    | some none =>
      simp only
      rw [update_self r hwf]
      simp
    | none =>
      simp only
      rw [update_self r hwf]
      simp

/-- C4 (amended): publishing the same source `S` twice in a row leaves the
canonical source after the second publish pointwise identical to the state
after the first; and provided `S` contains no unpublish sentinel entries,
the second publish records an empty updated-record-ID set.  (As stated the
claim fails when `S` contains an unpublish sentinel: the sentinel branch of
`updateTargetFromSource` marks the dataID unconditionally, see the
counterexample.) -/
theorem claim4_publish_idempotent_amended
    (T S : RelayRecordSource.Source)
    (hnd : (S.map Prod.fst).Nodup) (hwf : sourceRecordsWF S) :
    (∀ d, RelayRecordSource.get
        (updateTargetFromSource
          (updateTargetFromSource T S []).1 S []).1 d =
      RelayRecordSource.get (updateTargetFromSource T S []).1 d) ∧
    (noSentinelEntries S →
      (updateTargetFromSource (updateTargetFromSource T S []).1 S []).2
        = []) := by
  constructor
  · intro d
    rw [publish_get _ _ _ _ hnd, publish_get _ _ _ _ hnd]
    cases hS : assocGet S d with
    | none => simp
    | some e =>
      simp only
      exact entryApply_idem (RelayRecordSource.get T d) e
        (hwf (d, e) (mem_of_assocGet_eq_some S d e hS))
  · intro hsent
    rw [List.eq_nil_iff_forall_not_mem]
    intro d hd
    rw [publish_updated_mem _ _ _ _ hnd] at hd
    rcases hd with hd | ⟨e, he, hm⟩
    · simp at hd
    · rw [publish_get _ _ _ _ hnd, he] at hm
      have hmem := mem_of_assocGet_eq_some S d e he
      exact publishMarks_after_apply (RelayRecordSource.get T d) e
        (hwf (d, e) hmem) (hsent (d, e) hmem) hm

/-- Witness for C4 at a concrete target and source exercising a record
merge, a fresh record and a tombstone. -/
theorem claim4_witness :
    (let T : RelayRecordSource.Source := [("1", some [("a", FieldValue.vStr "x")])]
     let S : RelayRecordSource.Source :=
       [("1", some [("a", FieldValue.vStr "y"), ("b", FieldValue.vNull)]),
        ("2", some [("c", FieldValue.vInt 3)]),
        ("3", none)]
     (S.map Prod.fst).Nodup ∧ sourceRecordsWF S ∧ noSentinelEntries S ∧
       ((∀ d, RelayRecordSource.get
           (updateTargetFromSource (updateTargetFromSource T S []).1 S []).1 d =
         RelayRecordSource.get (updateTargetFromSource T S []).1 d) ∧
        (updateTargetFromSource (updateTargetFromSource T S []).1 S []).2
          = [])) := by
  refine ⟨by decide, by decide, by decide, ?_, ?_⟩
  · exact (claim4_publish_idempotent_amended _ _ (by decide) (by decide)).1
  · exact (claim4_publish_idempotent_amended _ _ (by decide) (by decide)).2
      (by decide)

/-- Counterexample to C4 as stated: publishing the singleton source whose
entry is the unpublish sentinel twice in a row records the dataID "1" as
updated on the second publish as well, not an empty set (the canonical
source is nevertheless unchanged). -/
theorem claim4_counterexample :
    (let S : RelayRecordSource.Source := [("1", some UNPUBLISH_RECORD_SENTINEL)]
     (updateTargetFromSource (updateTargetFromSource [] S []).1 S []).2
        = ["1"] ∧
     (updateTargetFromSource (updateTargetFromSource [] S []).1 S []).1
        = (updateTargetFromSource [] S []).1) := by
  constructor
  · decide
  · decide

/-! ## Claim C7: GC hold reconciliation in run() -/

theorem runRest_gcHold_iff (q : RelayPublishQueue) (st : RelayModernStore) :
    ((RelayPublishQueue.runRest q st).queue.gcHold = true ↔
      (RelayPublishQueue.runRest q st).queue.appliedOptimisticUpdates
        ≠ []) := by
  unfold RelayPublishQueue.runRest
  simp only
  generalize RelayPublishQueue.applyUpdatesPhase
    { q with pendingUpdaters := [] }
    (RelayPublishQueue.commitUpdatersPhase st q.pendingUpdaters) = r3
  by_cases hlen : (r3.1.appliedOptimisticUpdates).length > 0
  · have hne : r3.1.appliedOptimisticUpdates ≠ [] :=
      List.ne_nil_of_length_pos hlen
    by_cases hg : r3.1.gcHold <;>
      simp [RelayPublishQueue.RunResult.queue, hlen, hg, hne]
  · have hnil : r3.1.appliedOptimisticUpdates = [] := by
      rcases List.eq_nil_or_concat r3.1.appliedOptimisticUpdates with h | ⟨a, b, h⟩
      · exact h
      · exfalso
        apply hlen
        rw [h]
        simp
    by_cases hg : r3.1.gcHold <;>
      simp [RelayPublishQueue.RunResult.queue, hlen, hg, hnil]

/-- C7: after every completed (non-aborted) `run()`, the queue holds a
GC-hold disposable on the store iff the applied optimistic update set is
non-empty: the reconcile step acquires a hold when applied updates exist
and none is active, and releases any active hold when none exist. -/
theorem claim7_run_gc_hold (q : RelayPublishQueue) (st : RelayModernStore)
    (h : (q.run st).aborted = false) :
    ((q.run st).queue.gcHold = true ↔
      (q.run st).queue.appliedOptimisticUpdates ≠ []) := by
  unfold RelayPublishQueue.run at h ⊢
  simp only at h ⊢
  by_cases hb : (RelayPublishQueue.commitData
      (if q.pendingBackupRebase ∧ q.backup ≠ [] then
        (st.publish q.backup, { q with backup := RelayRecordSource.create })
      else (st, q)).1
      (if q.pendingBackupRebase ∧ q.backup ≠ [] then
        (st.publish q.backup, { q with backup := RelayRecordSource.create })
      else (st, q)).2.pendingData).2 = true
  · rw [if_pos hb] at h
    simp at h
  · rw [if_neg hb] at h ⊢
    exact runRest_gcHold_iff _ _

/-- Witness for C7: running the initial queue against a fresh store
completes and holds no GC hold, matching its empty applied set. -/
theorem claim7_witness :
    ((RelayPublishQueue.initial.run (RelayModernStore.create [])).aborted
        = false) ∧
      ((RelayPublishQueue.initial.run
          (RelayModernStore.create [])).queue.gcHold = true ↔
        (RelayPublishQueue.initial.run
          (RelayModernStore.create [])).queue.appliedOptimisticUpdates
          ≠ []) :=
  ⟨by decide, claim7_run_gc_hold RelayPublishQueue.initial
    (RelayModernStore.create []) (by decide)⟩

/-! ## Claim C5: errors in user updaters during run() -/

/-- A pending-data entry whose (optional) payload updater does not throw:
these are the entries `_commitData` processes without raising. -/
def payloadSafe : DataToCommit → Prop
  | .payload _ (some u) => u.throws = false
  | .payload _ none => True
  | .source _ => True

instance (d : DataToCommit) : Decidable (payloadSafe d) := by
  unfold payloadSafe
  match d with
  | .payload _ (some u) => exact inferInstance
  | .payload _ none => exact inferInstance
  | .source _ => exact inferInstance

theorem commitData_safe (st : RelayModernStore) (ds : List DataToCommit)
    (h : ∀ d ∈ ds, payloadSafe d) :
    (RelayPublishQueue.commitData st ds).2 = false := by
  induction ds generalizing st with
  | nil => rfl
  | cons d rest ih =>
    match d with
    | .source src =>
      exact ih (st.publish src) (fun x hx => h x (List.mem_cons_of_mem _ hx))
    | .payload src none =>
      show (RelayPublishQueue.commitData (st.publish src) rest).2 = false
      exact ih _ (fun x hx => h x (List.mem_cons_of_mem _ hx))
    | .payload src (some u) =>
      have hu : u.throws = false := h _ (List.mem_cons_self _ _)
      simp only [RelayPublishQueue.commitData,
        RelayPublishQueue.getSourceFromPayload, hu, Bool.false_eq_true,
        if_false]
      exact ih _ (fun x hx => h x (List.mem_cons_of_mem _ hx))

theorem applyUpdatesPhase_queue_shape (q : RelayPublishQueue)
    (st : RelayModernStore) :
    (RelayPublishQueue.applyUpdatesPhase q st).1.pendingData = q.pendingData ∧
    (RelayPublishQueue.applyUpdatesPhase q st).1.pendingUpdaters
      = q.pendingUpdaters ∧
    (RelayPublishQueue.applyUpdatesPhase q st).1.pendingOptimisticUpdates
      = [] := by
  unfold RelayPublishQueue.applyUpdatesPhase
  split
  · exact ⟨rfl, rfl, rfl⟩
  · rename_i hcond
    push_neg at hcond
    exact ⟨rfl, rfl, hcond.1⟩

theorem runRest_shape (q : RelayPublishQueue) (st : RelayModernStore) :
    (RelayPublishQueue.runRest q st).aborted = false ∧
    (RelayPublishQueue.runRest q st).queue.pendingData = q.pendingData ∧
    (RelayPublishQueue.runRest q st).queue.pendingUpdaters = [] ∧
    (RelayPublishQueue.runRest q st).queue.pendingOptimisticUpdates = [] := by
  have hshape := applyUpdatesPhase_queue_shape
    { q with pendingUpdaters := [] }
    (RelayPublishQueue.commitUpdatersPhase st q.pendingUpdaters)
  unfold RelayPublishQueue.runRest
  simp only
  generalize happ : RelayPublishQueue.applyUpdatesPhase
    { q with pendingUpdaters := [] }
    (RelayPublishQueue.commitUpdatersPhase st q.pendingUpdaters) = r3 at hshape ⊢
  refine ⟨trivial, ?_, ?_, ?_⟩
  · split <;> split <;> simp [hshape.1]
  · split <;> split <;> simp [hshape.2.1]
  · split <;> split <;> simp [hshape.2.2]

/-- C5 (amended): a `run()` whose pending payload entries carry no throwing
updater completes normally — regardless of throwing `commitUpdate` updaters
or throwing optimistic store updaters, which are invoked through
`ErrorUtils.applyWithGuard` and are caught — and all queued work is
consumed: the pending data, pending updaters and pending optimistic sets
are empty afterwards.  (As stated the claim fails: an updater supplied with
`commitPayload` is invoked unguarded in `_getSourceFromPayload`, so its
exception aborts the surrounding `run()`, see the counterexample.) -/
theorem claim5_guarded_updaters_amended (q : RelayPublishQueue)
    (st : RelayModernStore) (h : ∀ d ∈ q.pendingData, payloadSafe d) :
    (q.run st).aborted = false ∧
    (q.run st).queue.pendingData = [] ∧
    (q.run st).queue.pendingUpdaters = [] ∧
    (q.run st).queue.pendingOptimisticUpdates = [] := by
  unfold RelayPublishQueue.run
  simp only
  have hpd : (if q.pendingBackupRebase ∧ q.backup ≠ [] then
      (st.publish q.backup, { q with backup := RelayRecordSource.create })
    else (st, q)).2.pendingData = q.pendingData := by
    split <;> rfl
  rw [hpd]
  rw [if_neg (by rw [commitData_safe _ _ h]; exact Bool.false_ne_true)]
  have hr := runRest_shape
    { (if q.pendingBackupRebase ∧ q.backup ≠ [] then
        (st.publish q.backup, { q with backup := RelayRecordSource.create })
      else (st, q)).2 with pendingData := [] }
    (RelayPublishQueue.commitData
      (if q.pendingBackupRebase ∧ q.backup ≠ [] then
        (st.publish q.backup, { q with backup := RelayRecordSource.create })
      else (st, q)).1 q.pendingData).1
  exact ⟨hr.1, hr.2.1, hr.2.2.1, hr.2.2.2⟩

/-- Witness for C5: a queue with a throwing `commitUpdate` updater, a
throwing optimistic store updater, and a safe payload completes its run
and consumes all queued work. -/
theorem claim5_witness :
    (let q :=
       RelayPublishQueue.applyUpdate
         (RelayPublishQueue.commitUpdate
           (RelayPublishQueue.commitPayload RelayPublishQueue.initial
             [("1", some [("a", FieldValue.vStr "x")])] none)
           ⟨0, [BasicOp.setValue "1" "a" (FieldValue.vStr "y")], true⟩)
         ⟨1, OptKind.storeUpdater [] true⟩
     (∀ d ∈ q.pendingData, payloadSafe d) ∧
       ((q.run (RelayModernStore.create [])).aborted = false ∧
        (q.run (RelayModernStore.create [])).queue.pendingData = [] ∧
        (q.run (RelayModernStore.create [])).queue.pendingUpdaters = [] ∧
        (q.run (RelayModernStore.create [])).queue.pendingOptimisticUpdates
          = [])) :=
  ⟨by decide, claim5_guarded_updaters_amended _ _ (by decide)⟩

/-- Counterexample to C5 as stated: a queue whose pending payload carries a
throwing updater.  The updater is invoked unguarded inside
`_getSourceFromPayload`, so `run()` aborts — and the remaining queued work
(here a pending `commitUpdate` updater) is NOT executed and not cleared,
contradicting "the error is caught ... and does not abort the surrounding
run()". -/
theorem claim5_counterexample :
    (let q :=
       RelayPublishQueue.commitUpdate
         (RelayPublishQueue.commitPayload RelayPublishQueue.initial
           [("1", some [("a", FieldValue.vStr "x")])]
           (some ⟨0, [], true⟩))
         ⟨1, [BasicOp.setValue "1" "a" (FieldValue.vStr "y")], false⟩
     (q.run (RelayModernStore.create [])).aborted = true ∧
       (q.run (RelayModernStore.create [])).queue.pendingUpdaters
         = [⟨1, [BasicOp.setValue "1" "a" (FieldValue.vStr "y")], false⟩]) := by
  constructor
  · decide
  · decide

/-! ## Claim C2: notify and subscriptions -/

theorem updateSubscription_char (src : RelayRecordSource.Source)
    (upd : List DataID) (sub : Subscription) :
    RelayModernStore.updateSubscription src upd sub =
      (if hasOverlappingIDs sub.snapshot upd then
        ⟨{ RelayReader.read src sub.snapshot.selector sub.snapshot.owner with
            data := recycleNodesInto sub.snapshot.data
              (RelayReader.read src sub.snapshot.selector
                sub.snapshot.owner).data }⟩
      else sub,
      if hasOverlappingIDs sub.snapshot upd
          ∧ (RelayReader.read src sub.snapshot.selector
              sub.snapshot.owner).data ≠ sub.snapshot.data then
        some sub.snapshot.owner
      else none,
      if hasOverlappingIDs sub.snapshot upd
          ∧ (RelayReader.read src sub.snapshot.selector
              sub.snapshot.owner).data ≠ sub.snapshot.data then
        some { RelayReader.read src sub.snapshot.selector
            sub.snapshot.owner with
            data := recycleNodesInto sub.snapshot.data
              (RelayReader.read src sub.snapshot.selector
                sub.snapshot.owner).data }
      else none) := by
  unfold RelayModernStore.updateSubscription
  by_cases hov : hasOverlappingIDs sub.snapshot upd
  · simp only [hov, if_true, true_and]
    rw [recycleNodesInto_eq_next]
    by_cases heq : (RelayReader.read src sub.snapshot.selector
        sub.snapshot.owner).data = sub.snapshot.data
    · simp [heq]
    · simp [heq]
  · simp [hov]

theorem notify_fold (src : RelayRecordSource.Source) (upd : List DataID)
    (subs : List Subscription) (a1 : List Subscription) (a2 : List Nat)
    (a3 : List Snapshot) :
    subs.foldl
      (fun acc sub =>
        let r := RelayModernStore.updateSubscription src upd sub
        (acc.1 ++ [r.1], acc.2.1 ++ r.2.1.toList, acc.2.2 ++ r.2.2.toList))
      (a1, a2, a3) =
      (a1 ++ subs.map
        (fun sub => (RelayModernStore.updateSubscription src upd sub).1),
       a2 ++ subs.filterMap
        (fun sub => (RelayModernStore.updateSubscription src upd sub).2.1),
       a3 ++ subs.filterMap
        (fun sub => (RelayModernStore.updateSubscription src upd sub).2.2)) := by
  induction subs generalizing a1 a2 a3 with
  | nil => simp
  | cons sub rest ih =>
    simp only [List.foldl_cons, List.map_cons, List.filterMap_cons]
    rw [ih]
    cases h1 : (RelayModernStore.updateSubscription src upd sub).2.1 <;>
      cases h2 : (RelayModernStore.updateSubscription src upd sub).2.2 <;>
        simp [h1, h2]

/-- C2 (amended): `notify()` re-reads a subscription iff its snapshot's
seen records intersect the updated-record-ID set; for each re-read
subscription the re-read snapshot (with recycled data) is stored
UNCONDITIONALLY, and the callback is invoked — with the snapshot's owner
appended to the returned list — exactly when the recycled data is not
(reference-)equal to the old data; the updated-record-ID set is cleared.
In particular a subscription without overlap keeps its snapshot and its
callback never fires.  (As stated the claim fails only in that it gates
STORING the new snapshot on data inequality: the code stores it on every
re-read, see the counterexample.) -/
theorem claim2_notify_amended (st : RelayModernStore) :
    st.notify =
      ({ st with
          subscriptions := st.subscriptions.map (fun sub =>
            if hasOverlappingIDs sub.snapshot st.updatedRecordIDs then
              ⟨{ RelayReader.read st.recordSource sub.snapshot.selector
                  sub.snapshot.owner with
                  data := recycleNodesInto sub.snapshot.data
                    (RelayReader.read st.recordSource sub.snapshot.selector
                      sub.snapshot.owner).data }⟩
            else sub),
          updatedRecordIDs := [] },
       st.subscriptions.filterMap (fun sub =>
         if hasOverlappingIDs sub.snapshot st.updatedRecordIDs
             ∧ (RelayReader.read st.recordSource sub.snapshot.selector
                 sub.snapshot.owner).data ≠ sub.snapshot.data then
           some sub.snapshot.owner
         else none),
       st.subscriptions.filterMap (fun sub =>
         if hasOverlappingIDs sub.snapshot st.updatedRecordIDs
             ∧ (RelayReader.read st.recordSource sub.snapshot.selector
                 sub.snapshot.owner).data ≠ sub.snapshot.data then
           some { RelayReader.read st.recordSource sub.snapshot.selector
               sub.snapshot.owner with
               data := recycleNodesInto sub.snapshot.data
                 (RelayReader.read st.recordSource sub.snapshot.selector
                   sub.snapshot.owner).data }
         else none)) := by
  unfold RelayModernStore.notify
  simp only
  rw [notify_fold st.recordSource st.updatedRecordIDs st.subscriptions [] [] []]
  simp only [List.nil_append, updateSubscription_char]

/-- Selector of the C2 counterexample: a linked field `f` with a scalar
child `name`. -/
def claim2Selector : ReaderSelector :=
  { dataID := "r",
    selections := [Selection.linkedField "f" [Selection.scalarField "name"]] }

/-- Old source: `r.f` links to record "1". -/
def claim2OldSource : RelayRecordSource.Source :=
  [("r", some [("f", FieldValue.vRef "1")]),
   ("1", some [("name", FieldValue.vStr "x")])]

/-- New source: `r.f` now links to record "2" carrying the same field
values, so the re-read data is value-equal while the seen records differ. -/
def claim2NewSource : RelayRecordSource.Source :=
  [("r", some [("f", FieldValue.vRef "2")]),
   ("2", some [("name", FieldValue.vStr "x")])]

def claim2Snap : Snapshot := RelayReader.read claim2OldSource claim2Selector 7

def claim2Store : RelayModernStore :=
  { recordSource := claim2NewSource, updatedRecordIDs := ["r"],
    subscriptions := [⟨claim2Snap⟩], roots := [],
    gcHoldCounter := 0, shouldScheduleGC := false, hasScheduledGC := false }

/-- The tree value read by the counterexample selector from either
source. -/
def claim2Data : RData :=
  RData.obj [("f", RData.obj [("name", RData.val (FieldValue.vStr "x"))])]

theorem claim2Snap_eval :
    claim2Snap =
      { data := claim2Data, isMissingData := false,
        seenRecords := ["r", "1"], selector := claim2Selector, owner := 7 } := by
  unfold claim2Snap claim2OldSource claim2Data
  simp [RelayReader.read, claim2Selector, readRecordData, readSelections,
    readSelection, seenInsert, RelayRecordSource.get, assocGet,
    RelayModernRecord.getValue]

theorem claim2Read_eval :
    RelayReader.read claim2NewSource claim2Selector 7 =
      { data := claim2Data, isMissingData := false,
        seenRecords := ["r", "2"], selector := claim2Selector, owner := 7 } := by
  unfold claim2NewSource claim2Data
  simp [RelayReader.read, claim2Selector, readRecordData, readSelections,
    readSelection, seenInsert, RelayRecordSource.get, assocGet,
    RelayModernRecord.getValue]

/-- Counterexample to C2 as stated: in `claim2Store` the only
subscription's seen records overlap the updated IDs, the re-read yields
data value-equal (hence, after recycling, reference-equal) to the old
snapshot's data, and indeed no callback fires and no owner is returned —
yet `notify()` still replaces the stored snapshot (its seen records change
from ["r","1"] to ["r","2"]), contradicting "it stores the new snapshot
and invokes the callback only when the recycled data is not
reference-equal to the old data". -/
theorem claim2_counterexample :
    (RelayReader.read claim2NewSource claim2Selector 7).data
        = claim2Snap.data ∧
    (claim2Store.notify).2.1 = [] ∧
    (claim2Store.notify).2.2 = [] ∧
    (claim2Store.notify).1.subscriptions.map
        (fun s => s.snapshot.seenRecords) = [["r", "2"]] ∧
    claim2Snap.seenRecords = ["r", "1"] := by
  have hold := claim2Snap_eval
  have hnew := claim2Read_eval
  refine ⟨?_, ?_, ?_, ?_, ?_⟩
  · rw [hold, hnew]
  · rw [claim2_notify_amended]
    simp only [claim2Store]
    simp [hnew, hold, hasOverlappingIDs]
  · rw [claim2_notify_amended]
    simp only [claim2Store]
    simp [hnew, hold, hasOverlappingIDs]
  · rw [claim2_notify_amended]
    simp only [claim2Store]
    simp [hnew, hold, hasOverlappingIDs, recycleNodesInto]
  · rw [hold]

/-! ## Claim C1: optimistic undo exactness

The following development analyses the trace "apply optimistic updates via
`applyUpdate` and `run()`, batch by batch, then `revertAll()` and `run()`"
and characterizes the final canonical source.  The key invariant is that
publishing the queue's accumulated backup onto the current store source
restores the pre-trace source — which holds field-for-field only under a
side condition on the updates (see `claim1_counterexample`): a storage key
written to a record that already existed in the initial source must already
be present on that record, because the backup restores by field-wise merge
and a merge cannot remove a key. -/

/-- Every storage key of `r` is present on `r0` (computable form). -/
def keysSubB (r r0 : Record) : Bool :=
  r.all (fun p => RelayModernRecord.hasKey r0 p.1)

/-- Every storage key of `r` is present on `r0`. -/
def keysSub (r r0 : Record) : Prop :=
  keysSubB r r0 = true

instance (r r0 : Record) : Decidable (keysSub r r0) := by
  unfold keysSub
  exact inferInstance

theorem keysSub_iff (r r0 : Record) :
    keysSub r r0 ↔ ∀ p ∈ r, RelayModernRecord.hasKey r0 p.1 = true := by
  unfold keysSub keysSubB
  simp [List.all_eq_true]

theorem hasKey_of_mem (r : Record) (p : String × FieldValue) (h : p ∈ r) :
    RelayModernRecord.hasKey r p.1 = true := by
  induction r with
  | nil => simp at h
  | cons q rest ih =>
    rcases List.mem_cons.mp h with rfl | h2
    · simp [RelayModernRecord.hasKey, RelayModernRecord.getValue, assocGet]
    · by_cases hq : q.1 = p.1
      · simp [RelayModernRecord.hasKey, RelayModernRecord.getValue, assocGet,
          hq]
      · simpa [RelayModernRecord.hasKey, RelayModernRecord.getValue, assocGet,
          hq] using ih h2

theorem keysSub_iff_hasKey (r r0 : Record) :
    keysSub r r0 ↔
      (∀ k, RelayModernRecord.hasKey r k = true →
        RelayModernRecord.hasKey r0 k = true) := by
  rw [keysSub_iff]
  constructor
  · intro h k hk
    unfold RelayModernRecord.hasKey at hk
    cases hv : RelayModernRecord.getValue r k with
    | none => rw [hv] at hk; simp at hk
    | some v =>
      exact h (k, v) (mem_of_assocGet_eq_some r k v hv)
  · intro h p hp
    exact h p.1 (hasKey_of_mem r p hp)

theorem hasKey_setValue (r : Record) (k k' : String) (v : FieldValue) :
    RelayModernRecord.hasKey (RelayModernRecord.setValue r k v) k' =
      (RelayModernRecord.hasKey r k' || decide (k' = k)) := by
  unfold RelayModernRecord.hasKey RelayModernRecord.getValue
    RelayModernRecord.setValue
  by_cases hk : k' = k
  · subst hk
    simp [assocGet_set_self]
  · simp [assocGet_set_ne r k k' v hk, hk]

/-- Whether the initial source still constrains the record at `d`: if the
initial source holds a record there, staged and stored records at `d` keep
their keys within it; otherwise they descend from a `create` and carry
`__id`. -/
def recordOK (S0 : RelayRecordSource.Source) (d : DataID) (rs : Record) :
    Prop :=
  match assocGet S0 d with
  | some (some r0) => keysSub rs r0
  | _ => RelayModernRecord.hasKey rs "__id" = true

/-- The side condition on a primitive proxy operation, computable form:
keys written to a record that the initial source already holds must be
present on it. -/
def basicRespectsB (S0 : RelayRecordSource.Source) : BasicOp → Bool
  | .setValue d k _ =>
    match assocGet S0 d with
    | some (some r0) => RelayModernRecord.hasKey r0 k
    | _ => true
  | .create d _ =>
    match assocGet S0 d with
    | some (some r0) =>
      RelayModernRecord.hasKey r0 "__id" &&
        RelayModernRecord.hasKey r0 "__typename"
    | _ => true
  | .deleteRecord _ => true

def basicRespects (S0 : RelayRecordSource.Source) (op : BasicOp) : Prop :=
  basicRespectsB S0 op = true

instance (S0 : RelayRecordSource.Source) (op : BasicOp) :
    Decidable (basicRespects S0 op) := by
  unfold basicRespects
  exact inferInstance

/-- The side condition on an optimistic update, computable form. -/
def updateRespectsB (S0 : RelayRecordSource.Source) (u : OptimisticUpdate) :
    Bool :=
  match u.kind with
  | .storeUpdater ops _ => ops.all (basicRespectsB S0)
  | .sourceUpdate src =>
    src.all (fun p =>
      match p.2 with
      | some r =>
        match assocGet S0 p.1 with
        | some (some r0) =>
          keysSubB r r0 && RelayModernRecord.hasKey r0 "__id" &&
            RelayModernRecord.hasKey r0 "__typename"
        | _ => true
      | none => true)

def updateRespects (S0 : RelayRecordSource.Source) (u : OptimisticUpdate) :
    Prop :=
  updateRespectsB S0 u = true

instance (S0 : RelayRecordSource.Source) (u : OptimisticUpdate) :
    Decidable (updateRespects S0 u) := by
  unfold updateRespects
  exact inferInstance

/-- The record carries the reserved unpublish-sentinel key on none of its
fields. -/
def noSentinelKeyRecord (r : Record) : Prop :=
  RelayModernRecord.hasKey r "__UNPUBLISH_RECORD_SENTINEL" = false

def entryNoSentinelKeyB : Option Record → Bool
  | some r => !(RelayModernRecord.hasKey r "__UNPUBLISH_RECORD_SENTINEL")
  | none => true

/-- No record of the source carries the reserved sentinel key (JS user code
never writes the reserved key of the frozen sentinel object). -/
def sourceNoSentinelKeys (s : RelayRecordSource.Source) : Prop :=
  s.all (fun p => entryNoSentinelKeyB p.2) = true

instance (s : RelayRecordSource.Source) :
    Decidable (sourceNoSentinelKeys s) := by
  unfold sourceNoSentinelKeys
  exact inferInstance

theorem sourceNoSentinelKeys_mem (s : RelayRecordSource.Source)
    (h : sourceNoSentinelKeys s) (d : DataID) (r : Record)
    (hmem : (d, some r) ∈ s) : noSentinelKeyRecord r := by
  unfold sourceNoSentinelKeys at h
  rw [List.all_eq_true] at h
  have := h (d, some r) hmem
  simp only [entryNoSentinelKeyB, Bool.not_eq_true'] at this
  exact this

/-- A record whose keys avoid the sentinel key is not the sentinel. -/
theorem ne_sentinel_of_no_key (r : Record)
    (h : noSentinelKeyRecord r) : r ≠ UNPUBLISH_RECORD_SENTINEL := by
  intro hr
  unfold noSentinelKeyRecord at h
  rw [hr] at h
  simp [RelayModernRecord.hasKey, RelayModernRecord.getValue, assocGet,
    UNPUBLISH_RECORD_SENTINEL] at h

/-- A record carrying `__id` is not the sentinel. -/
theorem ne_sentinel_of_id (r : Record)
    (h : RelayModernRecord.hasKey r "__id" = true) :
    r ≠ UNPUBLISH_RECORD_SENTINEL := by
  intro hr
  rw [hr] at h
  simp [RelayModernRecord.hasKey, RelayModernRecord.getValue, assocGet,
    UNPUBLISH_RECORD_SENTINEL] at h

/-- Under no-sentinel-keys on the initial source, a record satisfying
`recordOK` is never the unpublish sentinel. -/
theorem recordOK_ne_sentinel (S0 : RelayRecordSource.Source) (d : DataID)
    (rs : Record) (hok : recordOK S0 d rs)
    (hns : sourceNoSentinelKeys S0) : rs ≠ UNPUBLISH_RECORD_SENTINEL := by
  unfold recordOK at hok
  cases hS : assocGet S0 d with
  | none =>
    rw [hS] at hok
    exact ne_sentinel_of_id rs hok
  | some e =>
    cases e with
    | none =>
      rw [hS] at hok
      exact ne_sentinel_of_id rs hok
    | some r0 =>
      rw [hS] at hok
      intro hr
      have hmem := mem_of_assocGet_eq_some S0 d (some r0) hS
      have hr0 : noSentinelKeyRecord r0 :=
        sourceNoSentinelKeys_mem S0 hns d r0 hmem
      have hok2 : keysSub rs r0 := hok
      rw [keysSub_iff] at hok2
      have hkey : RelayModernRecord.hasKey r0 "__UNPUBLISH_RECORD_SENTINEL"
          = true := by
        apply hok2 ("__UNPUBLISH_RECORD_SENTINEL", FieldValue.vBool true)
        rw [hr]
        simp [UNPUBLISH_RECORD_SENTINEL]
      unfold noSentinelKeyRecord at hr0
      rw [hkey] at hr0
      simp at hr0

/-- Invariant of the mutator state during one `_applyUpdates` phase:
`base` is the store source (fixed during the phase), `backupStart` the
queue backup at phase start.  Staged sink entries are always backed up
first-touch; backup entries are either inherited or encode the base state
of a freshly touched dataID; staged records satisfy `recordOK`. -/
structure MutInv (S0 base backupStart : RelayRecordSource.Source)
    (ms : MutState) : Prop where
  sinkBackup : ∀ d, assocGet ms.sink d ≠ none → assocGet ms.backup d ≠ none
  oldKept : ∀ d e, assocGet backupStart d = some e →
    assocGet ms.backup d = some e
  entries : ∀ d e, assocGet ms.backup d = some e →
    assocGet backupStart d = some e ∨
      (assocGet backupStart d = none ∧
        e = encodeBaseEntry (assocGet base d))
  newSink : ∀ d, assocGet backupStart d = none →
    assocGet ms.backup d ≠ none → assocGet ms.sink d ≠ none
  sinkOK : ∀ d rs, assocGet ms.sink d = some (some rs) → recordOK S0 d rs
  backupNodup : (ms.backup.map Prod.fst).Nodup
  sinkNodup : (ms.sink.map Prod.fst).Nodup

/-- Staging a write with first-touch backup preserves the invariant. -/
theorem mutInv_stage (S0 base backupStart : RelayRecordSource.Source)
    (ms : MutState) (d : DataID) (e : Option Record)
    (hinv : MutInv S0 base backupStart ms)
    (hok : ∀ rs, e = some rs → recordOK S0 d rs) :
    MutInv S0 base backupStart
      ⟨assocSet ms.sink d e, backupFirstTouch base ms d⟩ := by
  have hbackup_get : ∀ d', d' ≠ d →
      assocGet (backupFirstTouch base ms d) d' = assocGet ms.backup d' := by
    intro d' hne
    unfold backupFirstTouch
    cases hb : RelayRecordSource.get ms.backup d with
    | some _ => rfl
    | none => exact assocGet_set_ne _ _ _ _ hne
  have hbackup_self : assocGet (backupFirstTouch base ms d) d ≠ none := by
    unfold backupFirstTouch
    cases hb : RelayRecordSource.get ms.backup d with
    | some e2 =>
      unfold RelayRecordSource.get at hb
      rw [hb]
      simp
    | none =>
      rw [RelayRecordSource.set, assocGet_set_self]
      simp
  refine ⟨?_, ?_, ?_, ?_, ?_, ?_, ?_⟩
  · intro d' hs
    by_cases hd : d' = d
    · subst hd
      exact hbackup_self
    · rw [hbackup_get d' hd]
      rw [assocGet_set_ne _ _ _ _ hd] at hs
      exact hinv.sinkBackup d' hs
  · intro d' e0 h0
    by_cases hd : d' = d
    · subst hd
      have hb := hinv.oldKept d' e0 h0
      unfold backupFirstTouch
      unfold RelayRecordSource.get
      rw [hb]
      exact hb
    · rw [hbackup_get d' hd]
      exact hinv.oldKept d' e0 h0
  · intro d' e0 h0
    by_cases hd : d' = d
    · subst hd
      unfold backupFirstTouch at h0
      cases hb : RelayRecordSource.get ms.backup d' with
      | some e2 =>
        rw [hb] at h0
        exact hinv.entries d' e0 h0
      | none =>
        rw [hb] at h0
        rw [RelayRecordSource.set, assocGet_set_self] at h0
        right
        constructor
        · cases h0s : assocGet backupStart d' with
          | none => rfl
          | some e3 =>
            have := hinv.oldKept d' e3 h0s
            unfold RelayRecordSource.get at hb
            rw [this] at hb
            cases hb
        · injection h0 with h0e
          exact h0e.symm
    · rw [hbackup_get d' hd] at h0
      exact hinv.entries d' e0 h0
  · intro d' h0 h1
    by_cases hd : d' = d
    · subst hd
      rw [assocGet_set_self]
      simp
    · rw [hbackup_get d' hd] at h1
      rw [assocGet_set_ne _ _ _ _ hd]
      exact hinv.newSink d' h0 h1
  · intro d' rs hs
    by_cases hd : d' = d
    · subst hd
      rw [assocGet_set_self] at hs
      injection hs with hs2
      exact hok rs hs2
    · rw [assocGet_set_ne _ _ _ _ hd] at hs
      exact hinv.sinkOK d' rs hs
  · unfold backupFirstTouch
    cases hb : RelayRecordSource.get ms.backup d with
    | some _ => exact hinv.backupNodup
    | none => exact nodup_keys_assocSet _ _ _ hinv.backupNodup
  · exact nodup_keys_assocSet _ _ _ hinv.sinkNodup

/-- Modifying an already-staged sink record (no backup change) preserves
the invariant. -/
theorem mutInv_restage (S0 base backupStart : RelayRecordSource.Source)
    (ms : MutState) (d : DataID) (r2 : Record)
    (hinv : MutInv S0 base backupStart ms)
    (hstaged : assocGet ms.sink d ≠ none)
    (hok : recordOK S0 d r2) :
    MutInv S0 base backupStart
      ⟨assocSet ms.sink d (some r2), ms.backup⟩ := by
  refine ⟨?_, hinv.oldKept, hinv.entries, ?_, ?_, hinv.backupNodup, ?_⟩
  · intro d' hs
    by_cases hd : d' = d
    · subst hd
      exact hinv.sinkBackup d' hstaged
    · rw [assocGet_set_ne _ _ _ _ hd] at hs
      exact hinv.sinkBackup d' hs
  · intro d' h0 h1
    by_cases hd : d' = d
    · subst hd
      rw [assocGet_set_self]
      simp
    · rw [assocGet_set_ne _ _ _ _ hd]
      exact hinv.newSink d' h0 h1
  · intro d' rs hs
    by_cases hd : d' = d
    · subst hd
      rw [assocGet_set_self] at hs
      injection hs with hs2
      injection hs2 with hs3
      rw [← hs3]
      exact hok
    · rw [assocGet_set_ne _ _ _ _ hd] at hs
      exact hinv.sinkOK d' rs hs
  · exact nodup_keys_assocSet _ _ _ hinv.sinkNodup

theorem recordOK_setValue (S0 : RelayRecordSource.Source) (d : DataID)
    (rs : Record) (k : String) (v : FieldValue)
    (hok : recordOK S0 d rs)
    (hop : basicRespects S0 (BasicOp.setValue d k v)) :
    recordOK S0 d (RelayModernRecord.setValue rs k v) := by
  have hop2 : (match assocGet S0 d with
      | some (some r0) => RelayModernRecord.hasKey r0 k
      | _ => true) = true := hop
  cases hS : assocGet S0 d with
  | none =>
    unfold recordOK at hok ⊢
    rw [hS] at hok ⊢
    show RelayModernRecord.hasKey _ "__id" = true
    have hok3 : RelayModernRecord.hasKey rs "__id" = true := hok
    rw [hasKey_setValue, hok3]
    simp
  | some e =>
    cases e with
    | none =>
      unfold recordOK at hok ⊢
      rw [hS] at hok ⊢
      show RelayModernRecord.hasKey _ "__id" = true
      have hok3 : RelayModernRecord.hasKey rs "__id" = true := hok
      rw [hasKey_setValue, hok3]
      simp
    | some r0 =>
      unfold recordOK at hok ⊢
      rw [hS] at hok hop2 ⊢
      have hok2 : keysSub rs r0 := hok
      have hop3 : RelayModernRecord.hasKey r0 k = true := hop2
      show keysSub (RelayModernRecord.setValue rs k v) r0
      rw [keysSub_iff_hasKey] at hok2 ⊢
      intro k' hk'
      rw [hasKey_setValue] at hk'
      rcases Bool.or_eq_true_iff.mp hk' with h1 | h1
      · exact hok2 k' h1
      · rw [of_decide_eq_true h1]
        exact hop3

theorem recordOK_create (S0 : RelayRecordSource.Source) (d : DataID)
    (tn : String) (hop : basicRespects S0 (BasicOp.create d tn)) :
    recordOK S0 d
      [("__id", FieldValue.vStr d), ("__typename", FieldValue.vStr tn)] := by
  have hop2 : (match assocGet S0 d with
      | some (some r0) => RelayModernRecord.hasKey r0 "__id" &&
          RelayModernRecord.hasKey r0 "__typename"
      | _ => true) = true := hop
  cases hS : assocGet S0 d with
  | none =>
    unfold recordOK
    rw [hS]
    show RelayModernRecord.hasKey _ "__id" = true
    simp [RelayModernRecord.hasKey, RelayModernRecord.getValue, assocGet]
  | some e =>
    cases e with
    | none =>
      unfold recordOK
      rw [hS]
      show RelayModernRecord.hasKey _ "__id" = true
      simp [RelayModernRecord.hasKey, RelayModernRecord.getValue, assocGet]
    | some r0 =>
      unfold recordOK
      rw [hS] at hop2 ⊢
      have hop3 : (RelayModernRecord.hasKey r0 "__id" &&
          RelayModernRecord.hasKey r0 "__typename") = true := hop2
      rcases Bool.and_eq_true_iff.mp hop3 with ⟨h1, h2⟩
      show keysSub _ r0
      rw [keysSub_iff]
      intro p hp
      rcases List.mem_cons.mp hp with rfl | hp2
      · exact h1
      · rcases List.mem_cons.mp hp2 with rfl | hp3
        · exact h2
        · simp at hp3

/-- `applyBasic` preserves the mutator invariant when the base satisfies
`recordOK` and the operation respects the initial source's keys. -/
theorem mutInv_applyBasic (S0 base backupStart : RelayRecordSource.Source)
    (ms : MutState) (op : BasicOp)
    (hinv : MutInv S0 base backupStart ms)
    (hbase : ∀ d rs, assocGet base d = some (some rs) → recordOK S0 d rs)
    (hop : basicRespects S0 op) :
    MutInv S0 base backupStart (applyBasic base ms op) := by
  cases op with
  | setValue d k v =>
    simp only [applyBasic]
    cases hsink : RelayRecordSource.get ms.sink d with
    | some e =>
      cases e with
      | some r =>
        have hstaged : assocGet ms.sink d ≠ none := by
          unfold RelayRecordSource.get at hsink
          rw [hsink]
          simp
        have hokr : recordOK S0 d r := by
          apply hinv.sinkOK
          unfold RelayRecordSource.get at hsink
          exact hsink
        exact mutInv_restage S0 base backupStart ms d
          (RelayModernRecord.setValue r k v) hinv hstaged
          (recordOK_setValue S0 d r k v hokr hop)
      | none =>
        exact hinv
    | none =>
      cases hb : RelayRecordSource.get base d with
      | some e =>
        cases e with
        | some r =>
          have hokr : recordOK S0 d r := by
            apply hbase
            unfold RelayRecordSource.get at hb
            exact hb
          exact mutInv_stage S0 base backupStart ms d
            (some (RelayModernRecord.setValue r k v)) hinv
            (fun rs hrs => by
              injection hrs with h2
              rw [← h2]
              exact recordOK_setValue S0 d r k v hokr hop)
        | none =>
          exact hinv
      | none =>
        exact hinv
  | create d tn =>
    simp only [applyBasic]
    cases hv : viewGet base ms d with
    | some e =>
      cases e with
      | some r =>
        exact hinv
      | none =>
        exact mutInv_stage S0 base backupStart ms d
          (some [("__id", FieldValue.vStr d),
                 ("__typename", FieldValue.vStr tn)]) hinv
          (fun rs hrs => by
            injection hrs with h2
            rw [← h2]
            exact recordOK_create S0 d tn hop)
    | none =>
      exact mutInv_stage S0 base backupStart ms d
        (some [("__id", FieldValue.vStr d),
               ("__typename", FieldValue.vStr tn)]) hinv
        (fun rs hrs => by
          injection hrs with h2
          rw [← h2]
          exact recordOK_create S0 d tn hop)
  | deleteRecord d =>
    simp only [applyBasic]
    exact mutInv_stage S0 base backupStart ms d none hinv
      (fun rs hrs => by cases hrs)

theorem mutInv_foldBasic (S0 base backupStart : RelayRecordSource.Source)
    (ops : List BasicOp) (ms : MutState)
    (hinv : MutInv S0 base backupStart ms)
    (hbase : ∀ d rs, assocGet base d = some (some rs) → recordOK S0 d rs)
    (hops : ∀ op ∈ ops, basicRespects S0 op) :
    MutInv S0 base backupStart (ops.foldl (applyBasic base) ms) := by
  induction ops generalizing ms with
  | nil => exact hinv
  | cons op rest ih =>
    simp only [List.foldl_cons]
    exact ih (applyBasic base ms op)
      (mutInv_applyBasic S0 base backupStart ms op hinv hbase
        (hops op (List.mem_cons_self _ _)))
      (fun op2 h2 => hops op2 (List.mem_cons_of_mem _ h2))

/-- The per-entry condition of `updateRespects` for a source-publish entry
yields `basicRespects` for the generated field writes. -/
theorem sourceEntry_respects_setValue (S0 : RelayRecordSource.Source)
    (d : DataID) (r : Record)
    (hcond : (match assocGet S0 d with
      | some (some r0) =>
        keysSubB r r0 && RelayModernRecord.hasKey r0 "__id" &&
          RelayModernRecord.hasKey r0 "__typename"
      | _ => true) = true)
    (p : String × FieldValue) (hp : p ∈ r) :
    basicRespects S0 (BasicOp.setValue d p.1 p.2) := by
  show (match assocGet S0 d with
    | some (some r0) => RelayModernRecord.hasKey r0 p.1
    | _ => true) = true
  cases hS : assocGet S0 d with
  | none => rfl
  | some e =>
    cases e with
    | none => rfl
    | some r0 =>
      rw [hS] at hcond
      have hcond2 : (keysSubB r r0 && RelayModernRecord.hasKey r0 "__id" &&
          RelayModernRecord.hasKey r0 "__typename") = true := hcond
      rcases Bool.and_eq_true_iff.mp hcond2 with ⟨h12, h3⟩
      rcases Bool.and_eq_true_iff.mp h12 with ⟨h1, h2⟩
      have hsub : keysSub r r0 := h1
      rw [keysSub_iff] at hsub
      exact hsub p hp

theorem sourceEntry_respects_create (S0 : RelayRecordSource.Source)
    (d : DataID) (r : Record) (tn : String)
    (hcond : (match assocGet S0 d with
      | some (some r0) =>
        keysSubB r r0 && RelayModernRecord.hasKey r0 "__id" &&
          RelayModernRecord.hasKey r0 "__typename"
      | _ => true) = true) :
    basicRespects S0 (BasicOp.create d tn) := by
  show (match assocGet S0 d with
    | some (some r0) => RelayModernRecord.hasKey r0 "__id" &&
        RelayModernRecord.hasKey r0 "__typename"
    | _ => true) = true
  cases hS : assocGet S0 d with
  | none => rfl
  | some e =>
    cases e with
    | none => rfl
    | some r0 =>
      rw [hS] at hcond
      have hcond2 : (keysSubB r r0 && RelayModernRecord.hasKey r0 "__id" &&
          RelayModernRecord.hasKey r0 "__typename") = true := hcond
      rcases Bool.and_eq_true_iff.mp hcond2 with ⟨h12, h3⟩
      rcases Bool.and_eq_true_iff.mp h12 with ⟨h1, h2⟩
      show (RelayModernRecord.hasKey r0 "__id" &&
        RelayModernRecord.hasKey r0 "__typename") = true
      rw [h2, h3]
      rfl

theorem mutInv_foldSetValues (S0 base backupStart : RelayRecordSource.Source)
    (d : DataID) (ps : List (String × FieldValue)) (ms : MutState)
    (hinv : MutInv S0 base backupStart ms)
    (hbase : ∀ d2 rs, assocGet base d2 = some (some rs) → recordOK S0 d2 rs)
    (hsub : ∀ p ∈ ps, basicRespects S0 (BasicOp.setValue d p.1 p.2)) :
    MutInv S0 base backupStart
      (ps.foldl (fun m p => applyBasic base m (BasicOp.setValue d p.1 p.2))
        ms) := by
  induction ps generalizing ms with
  | nil => exact hinv
  | cons p rest ih =>
    simp only [List.foldl_cons]
    exact ih _
      (mutInv_applyBasic S0 base backupStart ms _ hinv hbase
        (hsub p (List.mem_cons_self _ _)))
      (fun p2 h2 => hsub p2 (List.mem_cons_of_mem _ h2))

theorem mutInv_copyFields (S0 base backupStart : RelayRecordSource.Source)
    (ms : MutState) (d : DataID) (r : Record)
    (hinv : MutInv S0 base backupStart ms)
    (hbase : ∀ d2 rs, assocGet base d2 = some (some rs) → recordOK S0 d2 rs)
    (hcond : (match assocGet S0 d with
      | some (some r0) =>
        keysSubB r r0 && RelayModernRecord.hasKey r0 "__id" &&
          RelayModernRecord.hasKey r0 "__typename"
      | _ => true) = true) :
    MutInv S0 base backupStart (copyFields base ms d r) := by
  unfold copyFields
  exact mutInv_foldSetValues S0 base backupStart d r ms hinv hbase
    (fun p hp => sourceEntry_respects_setValue S0 d r hcond p hp)

theorem mutInv_proxyPublishSource
    (S0 base backupStart : RelayRecordSource.Source)
    (ms : MutState) (src : RelayRecordSource.Source)
    (hinv : MutInv S0 base backupStart ms)
    (hbase : ∀ d rs, assocGet base d = some (some rs) → recordOK S0 d rs)
    (hcond : ∀ p ∈ src,
      (match p.2 with
       | some r =>
         match assocGet S0 p.1 with
         | some (some r0) =>
           keysSubB r r0 && RelayModernRecord.hasKey r0 "__id" &&
             RelayModernRecord.hasKey r0 "__typename"
         | _ => true
       | none => true) = true) :
    MutInv S0 base backupStart (proxyPublishSource base ms src) := by
  unfold proxyPublishSource
  induction src generalizing ms with
  | nil => exact hinv
  | cons p rest ih =>
    simp only [List.foldl_cons]
    have hc := hcond p (List.mem_cons_self _ _)
    have hstep : ∀ m0 : MutState, MutInv S0 base backupStart m0 →
        MutInv S0 base backupStart
          (match p.2 with
           | none => applyBasic base m0 (BasicOp.deleteRecord p.1)
           | some r =>
             copyFields base
               (match viewGet base m0 p.1 with
                | some (some _) => m0
                | _ =>
                  applyBasic base m0 (BasicOp.create p.1 (recordTypename r)))
               p.1 r) := by
      intro m0 hm0
      cases hp2 : p.2 with
      | none =>
        exact mutInv_applyBasic S0 base backupStart m0 _ hm0 hbase (by rfl)
      | some r =>
        rw [hp2] at hc
        cases hv : viewGet base m0 p.1 with
        | some e =>
          cases e with
          | some r2 =>
            exact mutInv_copyFields S0 base backupStart m0 p.1 r hm0 hbase hc
          | none =>
            exact mutInv_copyFields S0 base backupStart _ p.1 r
              (mutInv_applyBasic S0 base backupStart m0 _ hm0 hbase
                (sourceEntry_respects_create S0 p.1 r (recordTypename r) hc))
              hbase hc
        | none =>
          exact mutInv_copyFields S0 base backupStart _ p.1 r
            (mutInv_applyBasic S0 base backupStart m0 _ hm0 hbase
              (sourceEntry_respects_create S0 p.1 r (recordTypename r) hc))
            hbase hc
    exact ih _ (hstep ms hinv)
      (fun p2 h2 => hcond p2 (List.mem_cons_of_mem _ h2))

theorem mutInv_applyOptimisticUpdate
    (S0 base backupStart : RelayRecordSource.Source)
    (ms : MutState) (u : OptimisticUpdate)
    (hinv : MutInv S0 base backupStart ms)
    (hbase : ∀ d rs, assocGet base d = some (some rs) → recordOK S0 d rs)
    (hu : updateRespects S0 u) :
    MutInv S0 base backupStart
      (RelayPublishQueue.applyOptimisticUpdate base ms u) := by
  unfold RelayPublishQueue.applyOptimisticUpdate
  cases hk : u.kind with
  | storeUpdater ops throws =>
    have hu2 : (ops.all (basicRespectsB S0)) = true := by
      unfold updateRespects updateRespectsB at hu
      rw [hk] at hu
      exact hu
    have hops : ∀ op ∈ ops, basicRespects S0 op := by
      intro op hop
      exact List.all_eq_true.mp hu2 op hop
    cases throws with
    | true => simpa using hinv
    | false =>
      simp only [Bool.false_eq_true, if_false]
      exact mutInv_foldBasic S0 base backupStart ops ms hinv hbase hops
  | sourceUpdate src =>
    have hu2 : (src.all (fun p =>
        match p.2 with
        | some r =>
          match assocGet S0 p.1 with
          | some (some r0) =>
            keysSubB r r0 && RelayModernRecord.hasKey r0 "__id" &&
              RelayModernRecord.hasKey r0 "__typename"
          | _ => true
        | none => true)) = true := by
      unfold updateRespects updateRespectsB at hu
      rw [hk] at hu
      exact hu
    exact mutInv_proxyPublishSource S0 base backupStart ms src hinv hbase
      (fun p hp => List.all_eq_true.mp hu2 p hp)

theorem mutInv_foldUpdates (S0 base backupStart : RelayRecordSource.Source)
    (us : List OptimisticUpdate) (ms : MutState)
    (hinv : MutInv S0 base backupStart ms)
    (hbase : ∀ d rs, assocGet base d = some (some rs) → recordOK S0 d rs)
    (hus : ∀ u ∈ us, updateRespects S0 u) :
    MutInv S0 base backupStart
      (us.foldl (RelayPublishQueue.applyOptimisticUpdate base) ms) := by
  induction us generalizing ms with
  | nil => exact hinv
  | cons u rest ih =>
    simp only [List.foldl_cons]
    exact ih (RelayPublishQueue.applyOptimisticUpdate base ms u)
      (mutInv_applyOptimisticUpdate S0 base backupStart ms u hinv hbase
        (hus u (List.mem_cons_self _ _)))
      (fun u2 h2 => hus u2 (List.mem_cons_of_mem _ h2))

theorem recordOK_mergeFields (S0 : RelayRecordSource.Source) (d : DataID)
    (t rs : Record) (h1 : recordOK S0 d t) (h2 : recordOK S0 d rs) :
    recordOK S0 d (RelayModernRecord.mergeFields t rs) := by
  unfold recordOK at h1 h2 ⊢
  cases hS : assocGet S0 d with
  | none =>
    simp only [hS] at h1 h2
    have h1b : RelayModernRecord.hasKey t "__id" = true := h1
    show RelayModernRecord.hasKey _ "__id" = true
    rw [RelayModernRecord.hasKey_mergeFields, h1b]
    rfl
  | some e =>
    cases e with
    | none =>
      simp only [hS] at h1 h2
      have h1b : RelayModernRecord.hasKey t "__id" = true := h1
      show RelayModernRecord.hasKey _ "__id" = true
      rw [RelayModernRecord.hasKey_mergeFields, h1b]
      rfl
    | some r0 =>
      simp only [hS] at h1 h2
      have h1b : keysSub t r0 := h1
      have h2b : keysSub rs r0 := h2
      show keysSub _ r0
      rw [keysSub_iff_hasKey] at h1b h2b ⊢
      intro k hk
      rw [RelayModernRecord.hasKey_mergeFields] at hk
      rcases Bool.or_eq_true_iff.mp hk with h | h
      · exact h1b k h
      · exact h2b k h

theorem recordOK_update (S0 : RelayRecordSource.Source) (d : DataID)
    (t rs : Record) (h1 : recordOK S0 d t) (h2 : recordOK S0 d rs) :
    recordOK S0 d (RelayModernRecord.update t rs) := by
  unfold RelayModernRecord.update
  by_cases hs : RelayModernRecord.subsumes t rs = true
  · rw [if_pos hs]
    exact h1
  · rw [if_neg hs]
    exact recordOK_mergeFields S0 d t rs h1 h2

/-- The store/queue invariant between runs: publishing the backup onto the
current store source restores the initial source. -/
structure StoreInv (S0 S backup : RelayRecordSource.Source) : Prop where
  untouched : ∀ d, assocGet backup d = none → assocGet S d = assocGet S0 d
  backupEnc : ∀ d e, assocGet backup d = some e →
    e = encodeBaseEntry (assocGet S0 d)
  storeOK : ∀ d rs, assocGet S d = some (some rs) → recordOK S0 d rs
  touchedPresent : ∀ d r0, assocGet backup d = some (some r0) →
    assocGet S d ≠ none
  backupNodup : (backup.map Prod.fst).Nodup

theorem storeInv_init (S0 : RelayRecordSource.Source) :
    StoreInv S0 S0 [] := by
  refine ⟨fun d _ => rfl, ?_, ?_, ?_, ?_⟩
  · intro d e h
    simp [assocGet] at h
  · intro d rs h
    unfold recordOK
    rw [h]
    have : keysSub rs rs := by
      rw [keysSub_iff]
      intro p hp
      exact hasKey_of_mem rs p hp
    exact this
  · intro d r0 h
    simp [assocGet] at h
  · simp

/-- The start-of-run mutator state satisfies the mutator invariant. -/
theorem mutInv_start (S0 S backup : RelayRecordSource.Source)
    (hinv : StoreInv S0 S backup) :
    MutInv S0 S backup ⟨[], backup⟩ := by
  refine ⟨?_, ?_, ?_, ?_, ?_, hinv.backupNodup, ?_⟩
  · intro d h
    simp [assocGet] at h
  · intro d e h
    exact h
  · intro d e h
    exact Or.inl h
  · intro d h0 h1
    exact absurd h0 h1
  · intro d rs h
    simp [assocGet] at h
  · simp

/-- Applying a batch of respectful optimistic updates through the shared
mutator and publishing the sink preserves the store invariant, with the
mutator's accumulated backup as the new queue backup. -/
theorem storeInv_step (S0 S backup : RelayRecordSource.Source)
    (us : List OptimisticUpdate) (upd : List DataID)
    (hinv : StoreInv S0 S backup)
    (hns : sourceNoSentinelKeys S0)
    (hus : ∀ u ∈ us, updateRespects S0 u) :
    StoreInv S0
      (updateTargetFromSource S
        (us.foldl (RelayPublishQueue.applyOptimisticUpdate S)
          (⟨[], backup⟩ : MutState)).sink upd).1
      (us.foldl (RelayPublishQueue.applyOptimisticUpdate S)
        (⟨[], backup⟩ : MutState)).backup := by
  have hm : MutInv S0 S backup
      (us.foldl (RelayPublishQueue.applyOptimisticUpdate S)
        (⟨[], backup⟩ : MutState)) :=
    mutInv_foldUpdates S0 S backup us _ (mutInv_start S0 S backup hinv)
      hinv.storeOK hus
  set ms := us.foldl (RelayPublishQueue.applyOptimisticUpdate S)
    (⟨[], backup⟩ : MutState) with hms
  have hSentFree : ∀ d rs, assocGet ms.sink d = some (some rs) →
      rs ≠ UNPUBLISH_RECORD_SENTINEL := by
    intro d rs h
    exact recordOK_ne_sentinel S0 d rs (hm.sinkOK d rs h) hns
  refine ⟨?_, ?_, ?_, ?_, hm.backupNodup⟩
  · intro d hb
    have hb0 : assocGet backup d = none := by
      cases h0 : assocGet backup d with
      | none => rfl
      | some e =>
        have := hm.oldKept d e h0
        rw [this] at hb
        cases hb
    have hsink : assocGet ms.sink d = none := by
      cases h0 : assocGet ms.sink d with
      | none => rfl
      | some e =>
        exfalso
        apply hm.sinkBackup d
        · rw [h0]
          simp
        · exact hb
    have hp := publish_get S ms.sink upd d hm.sinkNodup
    simp only [RelayRecordSource.get] at hp
    rw [hp, hsink]
    exact hinv.untouched d hb0
  · intro d e hb
    rcases hm.entries d e hb with h | ⟨h0, henc⟩
    · exact hinv.backupEnc d e h
    · rw [henc]
      rw [hinv.untouched d h0]
  · intro d rs hrs
    have hp := publish_get S ms.sink upd d hm.sinkNodup
    simp only [RelayRecordSource.get] at hp
    rw [hp] at hrs
    cases hsink : assocGet ms.sink d with
    | none =>
      rw [hsink] at hrs
      exact hinv.storeOK d rs hrs
    | some e2 =>
      rw [hsink] at hrs
      cases e2 with
      | some rs2 =>
        have hns2 := hSentFree d rs2 hsink
        simp only [entryApply, hns2, if_false] at hrs
        cases hS : assocGet S d with
        | some e3 =>
          cases e3 with
          | some t =>
            rw [hS] at hrs
            simp only [Option.some.injEq] at hrs
            rw [← hrs]
            exact recordOK_update S0 d t rs2 (hinv.storeOK d t hS)
              (hm.sinkOK d rs2 hsink)
          | none =>
            rw [hS] at hrs
            simp only [Option.some.injEq] at hrs
            rw [← hrs]
            exact hm.sinkOK d rs2 hsink
        | none =>
          rw [hS] at hrs
          simp only [Option.some.injEq] at hrs
          rw [← hrs]
          exact hm.sinkOK d rs2 hsink
      | none =>
        simp only [entryApply] at hrs
        cases hrs
  · intro d r0 hb
    have hp := publish_get S ms.sink upd d hm.sinkNodup
    simp only [RelayRecordSource.get] at hp
    rw [hp]
    cases hsink : assocGet ms.sink d with
    | none =>
      rcases hm.entries d (some r0) hb with h | ⟨h0, henc⟩
      · exact hinv.touchedPresent d r0 h
      · exfalso
        have := hm.newSink d h0 (by rw [hb]; simp)
        rw [hsink] at this
        exact this rfl
    | some e2 =>
      cases e2 with
      | some rs2 =>
        have hns2 := hSentFree d rs2 hsink
        simp only [entryApply, hns2, if_false]
        cases hS : assocGet S d with
        | some e3 =>
          cases e3 with
          | some t => simp
          | none => simp
        | none => simp
      | none =>
        simp [entryApply]

/-- Pointwise field equality of two records: the same value or absence at
every storage key. -/
def recordEquiv (r1 r2 : Record) : Prop :=
  ∀ k, RelayModernRecord.getValue r1 k = RelayModernRecord.getValue r2 k

/-- Field-for-field equivalence of two source entries: identical
presence/absence and record/tombstone status, records compared pointwise. -/
def entryEquiv : Option (Option Record) → Option (Option Record) → Prop
  | some (some r1), some (some r2) => recordEquiv r1 r2
  | e1, e2 => e1 = e2

theorem entryEquiv_of_eq (e1 e2 : Option (Option Record)) (h : e1 = e2) :
    entryEquiv e1 e2 := by
  subst h
  match e1 with
  | some (some r) =>
    show recordEquiv r r
    intro k
    rfl
  | some none => rfl
  | none => rfl

/-- Merging `r0` back over a record whose keys all come from `r0` restores
`r0` pointwise (keys of `r0` distinct). -/
theorem update_restores (t r0 : Record) (hsub : keysSub t r0)
    (hnd : (r0.map Prod.fst).Nodup) (k : String) :
    RelayModernRecord.getValue (RelayModernRecord.update t r0) k =
      RelayModernRecord.getValue r0 k := by
  have hnone : RelayModernRecord.getValue r0 k = none →
      RelayModernRecord.getValue t k = none := by
    intro h0
    cases ht : RelayModernRecord.getValue t k with
    | none => rfl
    | some v =>
      exfalso
      have hk : RelayModernRecord.hasKey t k = true := by
        unfold RelayModernRecord.hasKey
        rw [ht]
        rfl
      have h2 := (keysSub_iff_hasKey t r0).mp hsub k hk
      unfold RelayModernRecord.hasKey at h2
      rw [h0] at h2
      simp at h2
  unfold RelayModernRecord.update
  by_cases hs : RelayModernRecord.subsumes t r0 = true
  · rw [if_pos hs]
    cases h0 : RelayModernRecord.getValue r0 k with
    | none => exact hnone h0
    | some v =>
      have hmem : (k, v) ∈ r0 := mem_of_assocGet_eq_some r0 k v h0
      exact (RelayModernRecord.subsumes_iff t r0).mp hs (k, v) hmem
  · rw [if_neg hs]
    cases h0 : RelayModernRecord.getValue r0 k with
    | none =>
      rw [RelayModernRecord.getValue_mergeFields_of_not_mem t r0 k h0]
      exact hnone h0
    | some v =>
      have hmem : (k, v) ∈ r0 := mem_of_assocGet_eq_some r0 k v h0
      exact RelayModernRecord.getValue_mergeFields_of_mem t r0 k v hmem hnd

/-- Publishing an accumulated backup satisfying the store invariant
restores the initial source field-for-field at every dataID. -/
theorem publish_backup_restores (S0 S backup : RelayRecordSource.Source)
    (upd : List DataID) (hinv : StoreInv S0 S backup)
    (hwf : sourceRecordsWF S0) (hns : sourceNoSentinelKeys S0) (d : DataID) :
    entryEquiv (assocGet (updateTargetFromSource S backup upd).1 d)
      (assocGet S0 d) := by
  have hp := publish_get S backup upd d hinv.backupNodup
  simp only [RelayRecordSource.get] at hp
  rw [hp]
  cases hb : assocGet backup d with
  | none => exact entryEquiv_of_eq _ _ (hinv.untouched d hb)
  | some e =>
    cases hS : assocGet S0 d with
    | none =>
      have henc := hinv.backupEnc d e hb
      rw [hS] at henc
      subst henc
      have happ : entryApply (assocGet S d) (encodeBaseEntry none) = none := by
        simp [entryApply, encodeBaseEntry]
      show entryEquiv (entryApply (assocGet S d) (encodeBaseEntry none)) none
      rw [happ]
      exact entryEquiv_of_eq _ _ rfl
    | some e0 =>
      cases e0 with
      | none =>
        have henc := hinv.backupEnc d e hb
        rw [hS] at henc
        subst henc
        have happ : entryApply (assocGet S d) (encodeBaseEntry (some none)) =
            some none := by
          simp [entryApply, encodeBaseEntry]
        show entryEquiv
          (entryApply (assocGet S d) (encodeBaseEntry (some none))) (some none)
        rw [happ]
        exact entryEquiv_of_eq _ _ rfl
      | some r0 =>
        have henc := hinv.backupEnc d e hb
        rw [hS] at henc
        subst henc
        have hmem0 : (d, some r0) ∈ S0 :=
          mem_of_assocGet_eq_some S0 d (some r0) hS
        have hnd0 : (r0.map Prod.fst).Nodup := hwf (d, some r0) hmem0
        have hnsr : r0 ≠ UNPUBLISH_RECORD_SENTINEL :=
          ne_sentinel_of_no_key r0 (sourceNoSentinelKeys_mem S0 hns d r0 hmem0)
        have hpres : assocGet S d ≠ none := hinv.touchedPresent d r0 hb
        cases hSd : assocGet S d with
        | none => exact absurd hSd hpres
        | some t0 =>
          cases t0 with
          | none =>
            have happ : entryApply (some none)
                (encodeBaseEntry (some (some r0))) = some (some r0) := by
              simp [entryApply, encodeBaseEntry, hnsr]
            show entryEquiv
              (entryApply (some none) (encodeBaseEntry (some (some r0))))
              (some (some r0))
            rw [happ]
            show recordEquiv r0 r0
            intro k
            rfl
          | some t =>
            have hok : recordOK S0 d t := hinv.storeOK d t hSd
            have hsubk : keysSub t r0 := by
              unfold recordOK at hok
              rw [hS] at hok
              exact hok
            have happ : entryApply (some (some t))
                (encodeBaseEntry (some (some r0))) =
                some (some (RelayModernRecord.update t r0)) := by
              simp [entryApply, encodeBaseEntry, hnsr]
            show entryEquiv
              (entryApply (some (some t)) (encodeBaseEntry (some (some r0))))
              (some (some r0))
            rw [happ]
            show recordEquiv (RelayModernRecord.update t r0) r0
            intro k
            exact update_restores t r0 hsubk hnd0 k

theorem notify_no_subs (st : RelayModernStore) (h : st.subscriptions = []) :
    st.notify =
      ({ st with subscriptions := [], updatedRecordIDs := [] }, [], []) := by
  unfold RelayModernStore.notify
  rw [h]
  rfl

theorem holdGC_preserve (st : RelayModernStore) :
    st.holdGC.recordSource = st.recordSource ∧
    st.holdGC.subscriptions = st.subscriptions ∧
    st.holdGC.updatedRecordIDs = st.updatedRecordIDs :=
  ⟨rfl, rfl, rfl⟩

theorem disposeGCHold_preserve (st : RelayModernStore) :
    st.disposeGCHold.recordSource = st.recordSource ∧
    st.disposeGCHold.subscriptions = st.subscriptions ∧
    st.disposeGCHold.updatedRecordIDs = st.updatedRecordIDs := by
  unfold RelayModernStore.disposeGCHold RelayModernStore.scheduleGC
  dsimp only
  repeat' split
  all_goals exact ⟨rfl, rfl, rfl⟩

theorem applyUpdate_fields (q : RelayPublishQueue) (u : OptimisticUpdate) :
    (q.applyUpdate u).backup = q.backup ∧
    (q.applyUpdate u).pendingBackupRebase = q.pendingBackupRebase ∧
    (q.applyUpdate u).pendingData = q.pendingData ∧
    (q.applyUpdate u).pendingUpdaters = q.pendingUpdaters ∧
    (q.applyUpdate u).appliedOptimisticUpdates
      = q.appliedOptimisticUpdates ∧
    (∀ w ∈ (q.applyUpdate u).pendingOptimisticUpdates,
      w ∈ q.pendingOptimisticUpdates ∨ w = u) := by
  unfold RelayPublishQueue.applyUpdate
  split
  · exact ⟨rfl, rfl, rfl, rfl, rfl, fun w hw => Or.inl hw⟩
  · refine ⟨rfl, rfl, rfl, rfl, rfl, ?_⟩
    intro w hw
    simp only [List.mem_append, List.mem_singleton] at hw
    exact hw

theorem applyUpdate_fold (batch : List OptimisticUpdate)
    (q : RelayPublishQueue) :
    ((batch.foldl RelayPublishQueue.applyUpdate q).backup = q.backup ∧
     (batch.foldl RelayPublishQueue.applyUpdate q).pendingBackupRebase
        = q.pendingBackupRebase ∧
     (batch.foldl RelayPublishQueue.applyUpdate q).pendingData
        = q.pendingData ∧
     (batch.foldl RelayPublishQueue.applyUpdate q).pendingUpdaters
        = q.pendingUpdaters) ∧
    (∀ w ∈ (batch.foldl
        RelayPublishQueue.applyUpdate q).pendingOptimisticUpdates,
      w ∈ q.pendingOptimisticUpdates ∨ w ∈ batch) := by
  induction batch generalizing q with
  | nil => exact ⟨⟨rfl, rfl, rfl, rfl⟩, fun w hw => Or.inl hw⟩
  | cons b rest ih =>
    simp only [List.foldl_cons]
    have h1 := applyUpdate_fields q b
    have h2 := ih (q.applyUpdate b)
    refine ⟨⟨?_, ?_, ?_, ?_⟩, ?_⟩
    · rw [h2.1.1, h1.1]
    · rw [h2.1.2.1, h1.2.1]
    · rw [h2.1.2.2.1, h1.2.2.1]
    · rw [h2.1.2.2.2, h1.2.2.2.1]
    · intro w hw
      rcases h2.2 w hw with h | h
      · rcases h1.2.2.2.2.2 w h with h' | h'
        · exact Or.inl h'
        · rw [h']
          exact Or.inr (List.mem_cons_self b rest)
      · exact Or.inr (List.mem_cons_of_mem b h)

theorem commitUpdatersPhase_nil (st : RelayModernStore) :
    RelayPublishQueue.commitUpdatersPhase st [] = st := by
  simp [RelayPublishQueue.commitUpdatersPhase]

theorem publish_subscriptions (st : RelayModernStore)
    (s : RelayRecordSource.Source) :
    (st.publish s).subscriptions = st.subscriptions := rfl

theorem notify_recordSource (st : RelayModernStore) :
    st.notify.1.recordSource = st.recordSource := rfl

theorem holdGC_recordSource (st : RelayModernStore) :
    st.holdGC.recordSource = st.recordSource := rfl

theorem holdGC_subscriptions (st : RelayModernStore) :
    st.holdGC.subscriptions = st.subscriptions := rfl

theorem disposeGCHold_recordSource (st : RelayModernStore) :
    st.disposeGCHold.recordSource = st.recordSource :=
  (disposeGCHold_preserve st).1

theorem disposeGCHold_subscriptions (st : RelayModernStore) :
    st.disposeGCHold.subscriptions = st.subscriptions :=
  (disposeGCHold_preserve st).2.1

/-- `_applyUpdates` with a cleared rebase flag: either there is nothing to
apply and the phase is the identity, or it runs the pending updates through
a fresh mutator over the queue backup and publishes the sink. -/
theorem applyUpdatesPhase_char (q : RelayPublishQueue)
    (st : RelayModernStore) (hreb : q.pendingBackupRebase = false) :
    (q.pendingOptimisticUpdates = [] ∧
      RelayPublishQueue.applyUpdatesPhase q st = (q, st)) ∨
    (q.pendingOptimisticUpdates ≠ [] ∧
      RelayPublishQueue.applyUpdatesPhase q st =
        ({ q with
            backup := (q.pendingOptimisticUpdates.foldl
              (RelayPublishQueue.applyOptimisticUpdate st.recordSource)
              ⟨RelayRecordSource.create, q.backup⟩).backup,
            pendingOptimisticUpdates := [],
            appliedOptimisticUpdates :=
              q.appliedOptimisticUpdates ++ q.pendingOptimisticUpdates },
         st.publish (q.pendingOptimisticUpdates.foldl
              (RelayPublishQueue.applyOptimisticUpdate st.recordSource)
              ⟨RelayRecordSource.create, q.backup⟩).sink)) := by
  by_cases hpo : q.pendingOptimisticUpdates = []
  · left
    refine ⟨hpo, ?_⟩
    unfold RelayPublishQueue.applyUpdatesPhase
    rw [if_neg ?_]
    intro h
    rcases h with h | h
    · exact h hpo
    · rw [hreb] at h
      exact absurd h.1 (by simp)
  · right
    refine ⟨hpo, ?_⟩
    unfold RelayPublishQueue.applyUpdatesPhase
    rw [if_pos (Or.inl hpo)]
    dsimp only
    simp only [hreb, Bool.false_eq_true, false_and, if_false]

/-- The projections of `runRest` needed for the trace invariant, relative
to the `_applyUpdates` result. -/
theorem runRest_char (q : RelayPublishQueue) (st : RelayModernStore) :
    (RelayPublishQueue.runRest q st).store.recordSource =
      (RelayPublishQueue.applyUpdatesPhase { q with pendingUpdaters := [] }
        (RelayPublishQueue.commitUpdatersPhase st
          q.pendingUpdaters)).2.recordSource ∧
    ((RelayPublishQueue.applyUpdatesPhase { q with pendingUpdaters := [] }
        (RelayPublishQueue.commitUpdatersPhase st
          q.pendingUpdaters)).2.subscriptions = [] →
      (RelayPublishQueue.runRest q st).store.subscriptions = []) ∧
    (RelayPublishQueue.runRest q st).queue.backup =
      (RelayPublishQueue.applyUpdatesPhase { q with pendingUpdaters := [] }
        (RelayPublishQueue.commitUpdatersPhase st
          q.pendingUpdaters)).1.backup ∧
    (RelayPublishQueue.runRest q st).queue.pendingBackupRebase = false := by
  unfold RelayPublishQueue.runRest
  simp only
  generalize happ : RelayPublishQueue.applyUpdatesPhase
    { q with pendingUpdaters := [] }
    (RelayPublishQueue.commitUpdatersPhase st q.pendingUpdaters) = r3
  refine ⟨?_, ?_, ?_, ?_⟩
  · split <;> split <;>
      simp [notify_recordSource, holdGC_recordSource,
        disposeGCHold_recordSource]
  · intro hsubs
    split <;> split
    · have h2 : r3.2.subscriptions = [] := hsubs
      rw [notify_no_subs r3.2 h2]
    · have h2 : r3.2.holdGC.subscriptions = [] := by
        rw [holdGC_subscriptions]
        exact hsubs
      rw [notify_no_subs r3.2.holdGC h2]
    · have h2 : r3.2.disposeGCHold.subscriptions = [] := by
        rw [disposeGCHold_subscriptions]
        exact hsubs
      rw [notify_no_subs r3.2.disposeGCHold h2]
    · have h2 : r3.2.subscriptions = [] := hsubs
      rw [notify_no_subs r3.2 h2]
  · split <;> split <;> rfl
  · split <;> split <;> rfl

/-- At a between-rounds queue state, `run()` skips the backup publish and
the data/updater phases. -/
theorem run_trace_eq (q : RelayPublishQueue) (st : RelayModernStore)
    (hreb : q.pendingBackupRebase = false) (hd : q.pendingData = []) :
    RelayPublishQueue.run q st =
      RelayPublishQueue.runRest { q with pendingData := [] } st := by
  unfold RelayPublishQueue.run
  simp only [hreb, Bool.false_eq_true, false_and, if_false, hd,
    RelayPublishQueue.commitData]

/-- One round of the modelled client loop: queue a batch of optimistic
updates with `applyUpdate`, then `run()`. -/
def runOptimisticBatch (qs : RelayPublishQueue × RelayModernStore)
    (batch : List OptimisticUpdate) :
    RelayPublishQueue × RelayModernStore :=
  let r := RelayPublishQueue.run
    (batch.foldl RelayPublishQueue.applyUpdate qs.1) qs.2
  (r.queue, r.store)

/-- The queue/store state after a sequence of applyUpdate-and-run rounds
starting from a fresh queue over a store holding `S0`. -/
def runOptimisticTrace (S0 : RelayRecordSource.Source)
    (batches : List (List OptimisticUpdate)) :
    RelayPublishQueue × RelayModernStore :=
  batches.foldl runOptimisticBatch
    (RelayPublishQueue.initial, RelayModernStore.create S0)

/-- `revertAll()` followed by `run()`. -/
def revertAllRun (qs : RelayPublishQueue × RelayModernStore) :
    RelayPublishQueue × RelayModernStore :=
  let r := RelayPublishQueue.run qs.1.revertAll qs.2
  (r.queue, r.store)

/-- The full scenario of the claim: a sequence of optimistic rounds over a
fresh store, then revert everything and run once more. -/
def revertTrace (S0 : RelayRecordSource.Source)
    (batches : List (List OptimisticUpdate)) :
    RelayPublishQueue × RelayModernStore :=
  revertAllRun (runOptimisticTrace S0 batches)

/-- The invariant holding between rounds: the store/backup relation, no
pending work, a cleared rebase flag, and no subscriptions. -/
structure TraceInv (S0 : RelayRecordSource.Source)
    (qs : RelayPublishQueue × RelayModernStore) : Prop where
  store : StoreInv S0 qs.2.recordSource qs.1.backup
  rebase : qs.1.pendingBackupRebase = false
  pdata : qs.1.pendingData = []
  pupd : qs.1.pendingUpdaters = []
  popt : qs.1.pendingOptimisticUpdates = []
  subs : qs.2.subscriptions = []

theorem traceInv_init (S0 : RelayRecordSource.Source) :
    TraceInv S0 (RelayPublishQueue.initial, RelayModernStore.create S0) :=
  ⟨storeInv_init S0, rfl, rfl, rfl, rfl, rfl⟩

/-- One applyUpdate-and-run round preserves the trace invariant, for
batches of respectful updates. -/
theorem traceInv_batch (S0 : RelayRecordSource.Source)
    (qs : RelayPublishQueue × RelayModernStore)
    (batch : List OptimisticUpdate) (hinv : TraceInv S0 qs)
    (hns : sourceNoSentinelKeys S0)
    (hus : ∀ u ∈ batch, updateRespects S0 u) :
    TraceInv S0 (runOptimisticBatch qs batch) := by
  have hf := applyUpdate_fold batch qs.1
  set q1 := batch.foldl RelayPublishQueue.applyUpdate qs.1 with hq1
  have hreb1 : q1.pendingBackupRebase = false := by
    rw [hf.1.2.1, hinv.rebase]
  have hd1 : q1.pendingData = [] := by rw [hf.1.2.2.1, hinv.pdata]
  have hu1 : q1.pendingUpdaters = [] := by rw [hf.1.2.2.2, hinv.pupd]
  have hb1 : q1.backup = qs.1.backup := hf.1.1
  have hmem1 : ∀ w ∈ q1.pendingOptimisticUpdates, updateRespects S0 w := by
    intro w hw
    rcases hf.2 w hw with h | h
    · rw [hinv.popt] at h
      simp at h
    · exact hus w h
  have hq1d : ({ q1 with pendingData := [] } : RelayPublishQueue) = q1 := by
    rw [← hd1]
  have hq1u : ({ q1 with pendingUpdaters := [] } : RelayPublishQueue)
      = q1 := by
    rw [← hu1]
  have hrun := run_trace_eq q1 qs.2 hreb1 hd1
  rw [hq1d] at hrun
  have hrc := runRest_char q1 qs.2
  have hsh := runRest_shape q1 qs.2
  rw [hu1, commitUpdatersPhase_nil, hq1u] at hrc
  rcases applyUpdatesPhase_char q1 qs.2 hreb1 with ⟨hpo, heq⟩ | ⟨hpo, heq⟩ <;>
    rw [heq] at hrc
  · refine ⟨?_, ?_, ?_, ?_, ?_, ?_⟩
    · show StoreInv S0 (RelayPublishQueue.run q1 qs.2).store.recordSource
        (RelayPublishQueue.run q1 qs.2).queue.backup
      rw [hrun, hrc.1, hrc.2.2.1]
      show StoreInv S0 qs.2.recordSource q1.backup
      rw [hb1]
      exact hinv.store
    · show (RelayPublishQueue.run q1 qs.2).queue.pendingBackupRebase = false
      rw [hrun]
      exact hrc.2.2.2
    · show (RelayPublishQueue.run q1 qs.2).queue.pendingData = []
      rw [hrun]
      exact (hsh.2.1).trans hd1
    · show (RelayPublishQueue.run q1 qs.2).queue.pendingUpdaters = []
      rw [hrun]
      exact hsh.2.2.1
    · show (RelayPublishQueue.run q1 qs.2).queue.pendingOptimisticUpdates = []
      rw [hrun]
      exact hsh.2.2.2
    · show (RelayPublishQueue.run q1 qs.2).store.subscriptions = []
      rw [hrun]
      apply hrc.2.1
      show qs.2.subscriptions = []
      exact hinv.subs
  · refine ⟨?_, ?_, ?_, ?_, ?_, ?_⟩
    · show StoreInv S0 (RelayPublishQueue.run q1 qs.2).store.recordSource
        (RelayPublishQueue.run q1 qs.2).queue.backup
      rw [hrun, hrc.1, hrc.2.2.1]
      show StoreInv S0
        (updateTargetFromSource qs.2.recordSource
          (q1.pendingOptimisticUpdates.foldl
            (RelayPublishQueue.applyOptimisticUpdate qs.2.recordSource)
            ⟨RelayRecordSource.create, q1.backup⟩).sink
          qs.2.updatedRecordIDs).1
        (q1.pendingOptimisticUpdates.foldl
          (RelayPublishQueue.applyOptimisticUpdate qs.2.recordSource)
          ⟨RelayRecordSource.create, q1.backup⟩).backup
      rw [hb1]
      exact storeInv_step S0 qs.2.recordSource qs.1.backup
        q1.pendingOptimisticUpdates qs.2.updatedRecordIDs hinv.store hns hmem1
    · show (RelayPublishQueue.run q1 qs.2).queue.pendingBackupRebase = false
      rw [hrun]
      exact hrc.2.2.2
    · show (RelayPublishQueue.run q1 qs.2).queue.pendingData = []
      rw [hrun]
      exact (hsh.2.1).trans hd1
    · show (RelayPublishQueue.run q1 qs.2).queue.pendingUpdaters = []
      rw [hrun]
      exact hsh.2.2.1
    · show (RelayPublishQueue.run q1 qs.2).queue.pendingOptimisticUpdates = []
      rw [hrun]
      exact hsh.2.2.2
    · show (RelayPublishQueue.run q1 qs.2).store.subscriptions = []
      rw [hrun]
      apply hrc.2.1
      show qs.2.subscriptions = []
      exact hinv.subs

/-- `_applyUpdates` is the identity when both optimistic sets are empty. -/
theorem applyUpdatesPhase_skip (q : RelayPublishQueue)
    (st : RelayModernStore) (hpo : q.pendingOptimisticUpdates = [])
    (hap : q.appliedOptimisticUpdates = []) :
    RelayPublishQueue.applyUpdatesPhase q st = (q, st) := by
  unfold RelayPublishQueue.applyUpdatesPhase
  rw [if_neg]
  intro h
  rcases h with h | h
  · exact h hpo
  · exact h.2 hap

/-- `run()` with an empty backup skips the backup publish. -/
theorem run_rebase_empty (q : RelayPublishQueue) (st : RelayModernStore)
    (hb : q.backup = []) (hd : q.pendingData = []) :
    RelayPublishQueue.run q st =
      RelayPublishQueue.runRest { q with pendingData := [] } st := by
  unfold RelayPublishQueue.run
  simp only [hb, ne_eq, not_true_eq_false, and_false, if_false, hd,
    RelayPublishQueue.commitData, Bool.false_eq_true]

/-- `run()` with a pending rebase and a non-empty backup first publishes
the backup and resets it. -/
theorem run_rebase_publish (q : RelayPublishQueue) (st : RelayModernStore)
    (hreb : q.pendingBackupRebase = true) (hb : q.backup ≠ [])
    (hd : q.pendingData = []) :
    RelayPublishQueue.run q st =
      RelayPublishQueue.runRest
        { q with backup := RelayRecordSource.create, pendingData := [] }
        (st.publish q.backup) := by
  unfold RelayPublishQueue.run
  have hcond : q.pendingBackupRebase = true ∧ q.backup ≠ [] := ⟨hreb, hb⟩
  rw [if_pos hcond]
  simp only [hd, RelayPublishQueue.commitData, Bool.false_eq_true, if_false]

/-- The trace invariant holds along any fold of respectful batches. -/
theorem traceInv_fold (S0 : RelayRecordSource.Source)
    (batches : List (List OptimisticUpdate))
    (hns : sourceNoSentinelKeys S0)
    (qs : RelayPublishQueue × RelayModernStore) (hinv : TraceInv S0 qs)
    (hres : ∀ b ∈ batches, ∀ u ∈ b, updateRespects S0 u) :
    TraceInv S0 (batches.foldl runOptimisticBatch qs) := by
  induction batches generalizing qs with
  | nil => exact hinv
  | cons b rest ih =>
    simp only [List.foldl_cons]
    exact ih _
      (traceInv_batch S0 qs b hinv hns (hres b (List.mem_cons_self b rest)))
      (fun b' hb' u hu => hres b' (List.mem_cons_of_mem b hb') u hu)

/-- Structure eta: clearing an already-empty pending-data list is the
identity. -/
theorem queue_eta_pendingData (q : RelayPublishQueue)
    (h : q.pendingData = []) :
    ({ q with pendingData := [] } : RelayPublishQueue) = q := by
  rw [← h]

/-- Structure eta: clearing an already-empty pending-updater list is the
identity. -/
theorem queue_eta_pendingUpdaters (q : RelayPublishQueue)
    (h : q.pendingUpdaters = []) :
    ({ q with pendingUpdaters := [] } : RelayPublishQueue) = q := by
  rw [← h]

/-- A `run()` on an idle queue (empty backup and no queued work of any
kind) leaves the record source and the queue backup unchanged. -/
theorem run_revert_empty_char (q : RelayPublishQueue)
    (st : RelayModernStore) (hbemp : q.backup = [])
    (hd : q.pendingData = []) (hu : q.pendingUpdaters = [])
    (hpo : q.pendingOptimisticUpdates = [])
    (hap : q.appliedOptimisticUpdates = []) :
    (RelayPublishQueue.run q st).store.recordSource = st.recordSource ∧
    (RelayPublishQueue.run q st).queue.backup = q.backup := by
  have hrun := run_rebase_empty q st hbemp hd
  rw [queue_eta_pendingData q hd] at hrun
  have hrc := runRest_char q st
  rw [hu, commitUpdatersPhase_nil, queue_eta_pendingUpdaters q hu,
    applyUpdatesPhase_skip q st hpo hap] at hrc
  exact ⟨by rw [hrun, hrc.1], by rw [hrun, hrc.2.2.1]⟩

/-- A `run()` on a queue with a pending rebase, a non-empty backup and no
other queued work publishes the backup onto the store and resets the
backup to an empty source. -/
theorem run_revert_publish_char (q : RelayPublishQueue)
    (st : RelayModernStore) (hreb : q.pendingBackupRebase = true)
    (hb : q.backup ≠ []) (hd : q.pendingData = [])
    (hu : q.pendingUpdaters = []) (hpo : q.pendingOptimisticUpdates = [])
    (hap : q.appliedOptimisticUpdates = []) :
    (RelayPublishQueue.run q st).store.recordSource =
      (st.publish q.backup).recordSource ∧
    (RelayPublishQueue.run q st).queue.backup =
      RelayRecordSource.create := by
  have hrun := run_rebase_publish q st hreb hb hd
  have hrc := runRest_char
    ({ q with backup := RelayRecordSource.create, pendingData := [] } :
      RelayPublishQueue) (st.publish q.backup)
  have hu1 : ({ q with backup := RelayRecordSource.create, pendingData := [] } : RelayPublishQueue).pendingUpdaters = [] := hu
  have hpo1 : ({ q with backup := RelayRecordSource.create, pendingData := [] } : RelayPublishQueue).pendingOptimisticUpdates = [] := hpo
  have hap1 : ({ q with backup := RelayRecordSource.create, pendingData := [] } : RelayPublishQueue).appliedOptimisticUpdates = [] := hap
  rw [hu1, commitUpdatersPhase_nil, queue_eta_pendingUpdaters _ hu1,
    applyUpdatesPhase_skip _ _ hpo1 hap1] at hrc
  exact ⟨by rw [hrun, hrc.1], by rw [hrun, hrc.2.2.1]⟩

/-- From any between-rounds state, `revertAll()` followed by `run()`
publishes the accumulated backup (when non-empty), restoring the initial
source field-for-field, and leaves the queue with an empty backup. -/
theorem revertAllRun_restores (S0 : RelayRecordSource.Source)
    (qs : RelayPublishQueue × RelayModernStore) (hinv : TraceInv S0 qs)
    (hwf : sourceRecordsWF S0) (hns : sourceNoSentinelKeys S0) :
    (∀ d, entryEquiv
      (RelayRecordSource.get (revertAllRun qs).2.recordSource d)
      (RelayRecordSource.get S0 d)) ∧
    (revertAllRun qs).1.backup = RelayRecordSource.create := by
  have hd' : qs.1.revertAll.pendingData = [] := hinv.pdata
  have hu' : qs.1.revertAll.pendingUpdaters = [] := hinv.pupd
  have hpo' : qs.1.revertAll.pendingOptimisticUpdates = [] := rfl
  have hap' : qs.1.revertAll.appliedOptimisticUpdates = [] := rfl
  have hreb' : qs.1.revertAll.pendingBackupRebase = true := rfl
  by_cases hbe : qs.1.backup = []
  · have hc := run_revert_empty_char qs.1.revertAll qs.2 hbe hd' hu'
      hpo' hap'
    constructor
    · intro d
      show entryEquiv (RelayRecordSource.get
          (RelayPublishQueue.run qs.1.revertAll qs.2).store.recordSource d)
        (RelayRecordSource.get S0 d)
      rw [hc.1]
      apply entryEquiv_of_eq
      apply hinv.store.untouched d
      rw [hbe]
      rfl
    · show (RelayPublishQueue.run qs.1.revertAll qs.2).queue.backup
        = RelayRecordSource.create
      rw [hc.2]
      show qs.1.backup = RelayRecordSource.create
      rw [hbe]
      rfl
  · have hc := run_revert_publish_char qs.1.revertAll qs.2 hreb' hbe hd'
      hu' hpo' hap'
    constructor
    · intro d
      show entryEquiv (RelayRecordSource.get
          (RelayPublishQueue.run qs.1.revertAll qs.2).store.recordSource d)
        (RelayRecordSource.get S0 d)
      rw [hc.1]
      show entryEquiv (assocGet (updateTargetFromSource qs.2.recordSource
        qs.1.backup qs.2.updatedRecordIDs).1 d) (assocGet S0 d)
      exact publish_backup_restores S0 qs.2.recordSource qs.1.backup
        qs.2.updatedRecordIDs hinv.store hwf hns d
    · show (RelayPublishQueue.run qs.1.revertAll qs.2).queue.backup
        = RelayRecordSource.create
      rw [hc.2]

/-- Concrete fixtures for claim C1: an initial source holding one record
with the single storage key `a`. -/
def claim1S0 : RelayRecordSource.Source :=
  [("1", some [("a", FieldValue.vStr "x")])]

/-- A respectful batch: the optimistic update overwrites the existing
storage key `a`. -/
def claim1GoodBatches : List (List OptimisticUpdate) :=
  [[⟨0, OptKind.storeUpdater
      [BasicOp.setValue "1" "a" (FieldValue.vStr "y")] false⟩]]

/-- A batch whose optimistic update writes the NEW storage key `b` onto
the pre-existing record. -/
def claim1BadBatches : List (List OptimisticUpdate) :=
  [[⟨0, OptKind.storeUpdater
      [BasicOp.setValue "1" "b" (FieldValue.vStr "y")] false⟩]]

/-- C1 (amended): after any sequence of applyUpdate-and-run rounds over a
wellformed initial source whose optimistic updates only write storage keys
already present on the records the initial source holds (and only create
records whose pre-existing counterpart carries `__id`/`__typename`),
`revertAll()` followed by `run()` restores the canonical record source to
the initial source field-for-field — the same presence/absence of every
dataID, the same record/tombstone status, and the same value or absence at
every storage key — and resets the queue backup to an empty source; and
`run()` on a queue with a pending rebase and non-empty backup first
publishes the accumulated backup to the store and continues with the
backup reset to an empty source.  (Without the write-respecting proviso
the claim fails, see the counterexample: an optimistically added storage
key survives the revert, because the backup merge-restores records and
`RelayModernRecord.update` keeps keys absent from the published record.) -/
theorem claim1_revert_restores_amended (S0 : RelayRecordSource.Source)
    (batches : List (List OptimisticUpdate))
    (hwf : sourceRecordsWF S0) (hns : sourceNoSentinelKeys S0)
    (hres : ∀ b ∈ batches, ∀ u ∈ b, updateRespects S0 u) :
    ((∀ d, entryEquiv
        (RelayRecordSource.get (revertTrace S0 batches).2.recordSource d)
        (RelayRecordSource.get S0 d)) ∧
      (revertTrace S0 batches).1.backup = RelayRecordSource.create) ∧
    (∀ q st, q.pendingBackupRebase = true → q.backup ≠ [] →
      q.pendingData = [] →
      RelayPublishQueue.run q st =
        RelayPublishQueue.runRest
          { q with backup := RelayRecordSource.create, pendingData := [] }
          (st.publish q.backup)) := by
  refine ⟨?_, fun q st h1 h2 h3 => run_rebase_publish q st h1 h2 h3⟩
  have hinv := traceInv_fold S0 batches hns
    (RelayPublishQueue.initial, RelayModernStore.create S0)
    (traceInv_init S0) hres
  exact revertAllRun_restores S0 (runOptimisticTrace S0 batches) hinv hwf hns

/-- Witness for C1: one round with an optimistic update overwriting an
existing key; the revert restores the source exactly and empties the
backup. -/
theorem claim1_witness :
    (sourceRecordsWF claim1S0 ∧ sourceNoSentinelKeys claim1S0 ∧
      (∀ b ∈ claim1GoodBatches, ∀ u ∈ b, updateRespects claim1S0 u)) ∧
    (((∀ d, entryEquiv
        (RelayRecordSource.get
          (revertTrace claim1S0 claim1GoodBatches).2.recordSource d)
        (RelayRecordSource.get claim1S0 d)) ∧
      (revertTrace claim1S0 claim1GoodBatches).1.backup
        = RelayRecordSource.create) ∧
    (∀ q st, q.pendingBackupRebase = true → q.backup ≠ [] →
      q.pendingData = [] →
      RelayPublishQueue.run q st =
        RelayPublishQueue.runRest
          { q with backup := RelayRecordSource.create, pendingData := [] }
          (st.publish q.backup))) :=
  ⟨⟨by decide, by decide, by decide⟩,
    claim1_revert_restores_amended claim1S0 claim1GoodBatches (by decide)
      (by decide) (by decide)⟩

/-- Counterexample to C1 as stated: an optimistic update adds the new
storage key `b` to the pre-existing record `1`; after `revertAll()` and
`run()` the canonical source still carries `b`, so it is not restored
field-for-field (the initial record has no key `b`). -/
theorem claim1_counterexample :
    RelayRecordSource.get
        (revertTrace claim1S0 claim1BadBatches).2.recordSource "1"
      ≠ RelayRecordSource.get claim1S0 "1" ∧
    (match RelayRecordSource.get
        (revertTrace claim1S0 claim1BadBatches).2.recordSource "1" with
      | some (some r) => RelayModernRecord.hasKey r "b"
      | _ => false) = true ∧
    (match RelayRecordSource.get claim1S0 "1" with
      | some (some r) => RelayModernRecord.hasKey r "b"
      | _ => true) = false := by
  decide
